import Mathlib

/-!
Verification of the curriculum-PDF converter core (`src/converter.py`):
the line normalizer `_clean_lines`, the line predicates (`_num_re`,
`_block_re`, `_sem_re`, `_total_keywords` and their wrappers), the
structure-building state machine `parse_study_plan_lines`, and the XML
serializer (`xml_escape`, `dict_to_structured_xml`).

Python strings are modelled as Lean `String` (a sequence of Unicode code
points, as in Python 3); the Unicode character classes used by the source
(`str.strip`/`str.split` whitespace, `re` `\s`, `re` `\d`, `str.isalpha`)
are modelled by explicit code-point range predicates below.
-/

set_option maxRecDepth 8192

/-- The set of Python whitespace code points: exactly the characters for
which `str.isspace()` holds, which is also the set matched by `re` class
`\s` and stripped by `str.strip()` / split on by `str.split()`. -/
def pyIsSpace (c : Char) : Bool :=
  let n := c.toNat
  (9 <= n && n <= 13) || (28 <= n && n <= 32) || n == 0x85 || n == 0xA0 ||
  n == 0x1680 || (0x2000 <= n && n <= 0x200A) || n == 0x2028 || n == 0x2029 ||
  n == 0x202F || n == 0x205F || n == 0x3000

/-- The zero-based runs of ten consecutive Unicode decimal-digit code
points (general category Nd): their union is exactly the set matched by
the Python `re` class `\d` on `str` patterns.  Each run starts at the digit
of value 0 and ends at the digit of value 9. -/
def digitRuns : List (Nat × Nat) :=
  [(0x30, 0x39), (0x660, 0x669), (0x6F0, 0x6F9), (0x7C0, 0x7C9),
   (0x966, 0x96F), (0x9E6, 0x9EF), (0xA66, 0xA6F), (0xAE6, 0xAEF),
   (0xB66, 0xB6F), (0xBE6, 0xBEF), (0xC66, 0xC6F), (0xCE6, 0xCEF),
   (0xD66, 0xD6F), (0xDE6, 0xDEF), (0xE50, 0xE59), (0xED0, 0xED9),
   (0xF20, 0xF29), (0x1040, 0x1049), (0x1090, 0x1099), (0x17E0, 0x17E9),
   (0x1810, 0x1819), (0x1946, 0x194F), (0x19D0, 0x19D9), (0x1A80, 0x1A89),
   (0x1A90, 0x1A99), (0x1B50, 0x1B59), (0x1BB0, 0x1BB9), (0x1C40, 0x1C49),
   (0x1C50, 0x1C59), (0xA620, 0xA629), (0xA8D0, 0xA8D9), (0xA900, 0xA909),
   (0xA9D0, 0xA9D9), (0xA9F0, 0xA9F9), (0xAA50, 0xAA59), (0xABF0, 0xABF9),
   (0xFF10, 0xFF19), (0x104A0, 0x104A9), (0x10D30, 0x10D39), (0x11066, 0x1106F),
   (0x110F0, 0x110F9), (0x11136, 0x1113F), (0x111D0, 0x111D9), (0x112F0, 0x112F9),
   (0x11450, 0x11459), (0x114D0, 0x114D9), (0x11650, 0x11659), (0x116C0, 0x116C9),
   (0x11730, 0x11739), (0x118E0, 0x118E9), (0x11950, 0x11959), (0x11C50, 0x11C59),
   (0x11D50, 0x11D59), (0x11DA0, 0x11DA9), (0x16A60, 0x16A69), (0x16AC0, 0x16AC9),
   (0x16B50, 0x16B59), (0x1D7CE, 0x1D7D7), (0x1D7D8, 0x1D7E1), (0x1D7E2, 0x1D7EB),
   (0x1D7EC, 0x1D7F5), (0x1D7F6, 0x1D7FF), (0x1E140, 0x1E149), (0x1E2F0, 0x1E2F9),
   (0x1E950, 0x1E959), (0x1FBF0, 0x1FBF9)]

/-- Is `c` a Unicode decimal digit (Python `re` `\d`). -/
def pyIsDigit (c : Char) : Bool :=
  digitRuns.any (fun r => r.1 <= c.toNat && c.toNat <= r.2)

/-- The numeric value of a Unicode decimal digit (the value `int()`
assigns to it): its offset from the start of its run.  `0` on
non-digits. -/
def pyDigitVal (c : Char) : Nat :=
  match digitRuns.find? (fun r => r.1 <= c.toNat && c.toNat <= r.2) with
  | some r => c.toNat - r.1
  | none => 0

/-- The maximal ranges of code points of Unicode general category Lu, Ll,
Lt, Lm or Lo: exactly the set on which Python `str.isalpha()` is true, per
the Unicode character database used by CPython. -/
def alphaRuns : List (Nat × Nat) :=
  [(0x41, 0x5A), (0x61, 0x7A), (0xAA, 0xAA), (0xB5, 0xB5),
   (0xBA, 0xBA), (0xC0, 0xD6), (0xD8, 0xF6), (0xF8, 0x2C1),
   (0x2C6, 0x2D1), (0x2E0, 0x2E4), (0x2EC, 0x2EC), (0x2EE, 0x2EE),
   (0x370, 0x374), (0x376, 0x377), (0x37A, 0x37D), (0x37F, 0x37F),
   (0x386, 0x386), (0x388, 0x38A), (0x38C, 0x38C), (0x38E, 0x3A1),
   (0x3A3, 0x3F5), (0x3F7, 0x481), (0x48A, 0x52F), (0x531, 0x556),
   (0x559, 0x559), (0x560, 0x588), (0x5D0, 0x5EA), (0x5EF, 0x5F2),
   (0x620, 0x64A), (0x66E, 0x66F), (0x671, 0x6D3), (0x6D5, 0x6D5),
   (0x6E5, 0x6E6), (0x6EE, 0x6EF), (0x6FA, 0x6FC), (0x6FF, 0x6FF),
   (0x710, 0x710), (0x712, 0x72F), (0x74D, 0x7A5), (0x7B1, 0x7B1),
   (0x7CA, 0x7EA), (0x7F4, 0x7F5), (0x7FA, 0x7FA), (0x800, 0x815),
   (0x81A, 0x81A), (0x824, 0x824), (0x828, 0x828), (0x840, 0x858),
   (0x860, 0x86A), (0x870, 0x887), (0x889, 0x88E), (0x8A0, 0x8C9),
   (0x904, 0x939), (0x93D, 0x93D), (0x950, 0x950), (0x958, 0x961),
   (0x971, 0x980), (0x985, 0x98C), (0x98F, 0x990), (0x993, 0x9A8),
   (0x9AA, 0x9B0), (0x9B2, 0x9B2), (0x9B6, 0x9B9), (0x9BD, 0x9BD),
   (0x9CE, 0x9CE), (0x9DC, 0x9DD), (0x9DF, 0x9E1), (0x9F0, 0x9F1),
   (0x9FC, 0x9FC), (0xA05, 0xA0A), (0xA0F, 0xA10), (0xA13, 0xA28),
   (0xA2A, 0xA30), (0xA32, 0xA33), (0xA35, 0xA36), (0xA38, 0xA39),
   (0xA59, 0xA5C), (0xA5E, 0xA5E), (0xA72, 0xA74), (0xA85, 0xA8D),
   (0xA8F, 0xA91), (0xA93, 0xAA8), (0xAAA, 0xAB0), (0xAB2, 0xAB3),
   (0xAB5, 0xAB9), (0xABD, 0xABD), (0xAD0, 0xAD0), (0xAE0, 0xAE1),
   (0xAF9, 0xAF9), (0xB05, 0xB0C), (0xB0F, 0xB10), (0xB13, 0xB28),
   (0xB2A, 0xB30), (0xB32, 0xB33), (0xB35, 0xB39), (0xB3D, 0xB3D),
   (0xB5C, 0xB5D), (0xB5F, 0xB61), (0xB71, 0xB71), (0xB83, 0xB83),
   (0xB85, 0xB8A), (0xB8E, 0xB90), (0xB92, 0xB95), (0xB99, 0xB9A),
   (0xB9C, 0xB9C), (0xB9E, 0xB9F), (0xBA3, 0xBA4), (0xBA8, 0xBAA),
   (0xBAE, 0xBB9), (0xBD0, 0xBD0), (0xC05, 0xC0C), (0xC0E, 0xC10),
   (0xC12, 0xC28), (0xC2A, 0xC39), (0xC3D, 0xC3D), (0xC58, 0xC5A),
   (0xC5D, 0xC5D), (0xC60, 0xC61), (0xC80, 0xC80), (0xC85, 0xC8C),
   (0xC8E, 0xC90), (0xC92, 0xCA8), (0xCAA, 0xCB3), (0xCB5, 0xCB9),
   (0xCBD, 0xCBD), (0xCDD, 0xCDE), (0xCE0, 0xCE1), (0xCF1, 0xCF2),
   (0xD04, 0xD0C), (0xD0E, 0xD10), (0xD12, 0xD3A), (0xD3D, 0xD3D),
   (0xD4E, 0xD4E), (0xD54, 0xD56), (0xD5F, 0xD61), (0xD7A, 0xD7F),
   (0xD85, 0xD96), (0xD9A, 0xDB1), (0xDB3, 0xDBB), (0xDBD, 0xDBD),
   (0xDC0, 0xDC6), (0xE01, 0xE30), (0xE32, 0xE33), (0xE40, 0xE46),
   (0xE81, 0xE82), (0xE84, 0xE84), (0xE86, 0xE8A), (0xE8C, 0xEA3),
   (0xEA5, 0xEA5), (0xEA7, 0xEB0), (0xEB2, 0xEB3), (0xEBD, 0xEBD),
   (0xEC0, 0xEC4), (0xEC6, 0xEC6), (0xEDC, 0xEDF), (0xF00, 0xF00),
   (0xF40, 0xF47), (0xF49, 0xF6C), (0xF88, 0xF8C), (0x1000, 0x102A),
   (0x103F, 0x103F), (0x1050, 0x1055), (0x105A, 0x105D), (0x1061, 0x1061),
   (0x1065, 0x1066), (0x106E, 0x1070), (0x1075, 0x1081), (0x108E, 0x108E),
   (0x10A0, 0x10C5), (0x10C7, 0x10C7), (0x10CD, 0x10CD), (0x10D0, 0x10FA),
   (0x10FC, 0x1248), (0x124A, 0x124D), (0x1250, 0x1256), (0x1258, 0x1258),
   (0x125A, 0x125D), (0x1260, 0x1288), (0x128A, 0x128D), (0x1290, 0x12B0),
   (0x12B2, 0x12B5), (0x12B8, 0x12BE), (0x12C0, 0x12C0), (0x12C2, 0x12C5),
   (0x12C8, 0x12D6), (0x12D8, 0x1310), (0x1312, 0x1315), (0x1318, 0x135A),
   (0x1380, 0x138F), (0x13A0, 0x13F5), (0x13F8, 0x13FD), (0x1401, 0x166C),
   (0x166F, 0x167F), (0x1681, 0x169A), (0x16A0, 0x16EA), (0x16F1, 0x16F8),
   (0x1700, 0x1711), (0x171F, 0x1731), (0x1740, 0x1751), (0x1760, 0x176C),
   (0x176E, 0x1770), (0x1780, 0x17B3), (0x17D7, 0x17D7), (0x17DC, 0x17DC),
   (0x1820, 0x1878), (0x1880, 0x1884), (0x1887, 0x18A8), (0x18AA, 0x18AA),
   (0x18B0, 0x18F5), (0x1900, 0x191E), (0x1950, 0x196D), (0x1970, 0x1974),
   (0x1980, 0x19AB), (0x19B0, 0x19C9), (0x1A00, 0x1A16), (0x1A20, 0x1A54),
   (0x1AA7, 0x1AA7), (0x1B05, 0x1B33), (0x1B45, 0x1B4C), (0x1B83, 0x1BA0),
   (0x1BAE, 0x1BAF), (0x1BBA, 0x1BE5), (0x1C00, 0x1C23), (0x1C4D, 0x1C4F),
   (0x1C5A, 0x1C7D), (0x1C80, 0x1C88), (0x1C90, 0x1CBA), (0x1CBD, 0x1CBF),
   (0x1CE9, 0x1CEC), (0x1CEE, 0x1CF3), (0x1CF5, 0x1CF6), (0x1CFA, 0x1CFA),
   (0x1D00, 0x1DBF), (0x1E00, 0x1F15), (0x1F18, 0x1F1D), (0x1F20, 0x1F45),
   (0x1F48, 0x1F4D), (0x1F50, 0x1F57), (0x1F59, 0x1F59), (0x1F5B, 0x1F5B),
   (0x1F5D, 0x1F5D), (0x1F5F, 0x1F7D), (0x1F80, 0x1FB4), (0x1FB6, 0x1FBC),
   (0x1FBE, 0x1FBE), (0x1FC2, 0x1FC4), (0x1FC6, 0x1FCC), (0x1FD0, 0x1FD3),
   (0x1FD6, 0x1FDB), (0x1FE0, 0x1FEC), (0x1FF2, 0x1FF4), (0x1FF6, 0x1FFC),
   (0x2071, 0x2071), (0x207F, 0x207F), (0x2090, 0x209C), (0x2102, 0x2102),
   (0x2107, 0x2107), (0x210A, 0x2113), (0x2115, 0x2115), (0x2119, 0x211D),
   (0x2124, 0x2124), (0x2126, 0x2126), (0x2128, 0x2128), (0x212A, 0x212D),
   (0x212F, 0x2139), (0x213C, 0x213F), (0x2145, 0x2149), (0x214E, 0x214E),
   (0x2183, 0x2184), (0x2C00, 0x2CE4), (0x2CEB, 0x2CEE), (0x2CF2, 0x2CF3),
   (0x2D00, 0x2D25), (0x2D27, 0x2D27), (0x2D2D, 0x2D2D), (0x2D30, 0x2D67),
   (0x2D6F, 0x2D6F), (0x2D80, 0x2D96), (0x2DA0, 0x2DA6), (0x2DA8, 0x2DAE),
   (0x2DB0, 0x2DB6), (0x2DB8, 0x2DBE), (0x2DC0, 0x2DC6), (0x2DC8, 0x2DCE),
   (0x2DD0, 0x2DD6), (0x2DD8, 0x2DDE), (0x2E2F, 0x2E2F), (0x3005, 0x3006),
   (0x3031, 0x3035), (0x303B, 0x303C), (0x3041, 0x3096), (0x309D, 0x309F),
   (0x30A1, 0x30FA), (0x30FC, 0x30FF), (0x3105, 0x312F), (0x3131, 0x318E),
   (0x31A0, 0x31BF), (0x31F0, 0x31FF), (0x3400, 0x4DBF), (0x4E00, 0xA48C),
   (0xA4D0, 0xA4FD), (0xA500, 0xA60C), (0xA610, 0xA61F), (0xA62A, 0xA62B),
   (0xA640, 0xA66E), (0xA67F, 0xA69D), (0xA6A0, 0xA6E5), (0xA717, 0xA71F),
   (0xA722, 0xA788), (0xA78B, 0xA7CA), (0xA7D0, 0xA7D1), (0xA7D3, 0xA7D3),
   (0xA7D5, 0xA7D9), (0xA7F2, 0xA801), (0xA803, 0xA805), (0xA807, 0xA80A),
   (0xA80C, 0xA822), (0xA840, 0xA873), (0xA882, 0xA8B3), (0xA8F2, 0xA8F7),
   (0xA8FB, 0xA8FB), (0xA8FD, 0xA8FE), (0xA90A, 0xA925), (0xA930, 0xA946),
   (0xA960, 0xA97C), (0xA984, 0xA9B2), (0xA9CF, 0xA9CF), (0xA9E0, 0xA9E4),
   (0xA9E6, 0xA9EF), (0xA9FA, 0xA9FE), (0xAA00, 0xAA28), (0xAA40, 0xAA42),
   (0xAA44, 0xAA4B), (0xAA60, 0xAA76), (0xAA7A, 0xAA7A), (0xAA7E, 0xAAAF),
   (0xAAB1, 0xAAB1), (0xAAB5, 0xAAB6), (0xAAB9, 0xAABD), (0xAAC0, 0xAAC0),
   (0xAAC2, 0xAAC2), (0xAADB, 0xAADD), (0xAAE0, 0xAAEA), (0xAAF2, 0xAAF4),
   (0xAB01, 0xAB06), (0xAB09, 0xAB0E), (0xAB11, 0xAB16), (0xAB20, 0xAB26),
   (0xAB28, 0xAB2E), (0xAB30, 0xAB5A), (0xAB5C, 0xAB69), (0xAB70, 0xABE2),
   (0xAC00, 0xD7A3), (0xD7B0, 0xD7C6), (0xD7CB, 0xD7FB), (0xF900, 0xFA6D),
   (0xFA70, 0xFAD9), (0xFB00, 0xFB06), (0xFB13, 0xFB17), (0xFB1D, 0xFB1D),
   (0xFB1F, 0xFB28), (0xFB2A, 0xFB36), (0xFB38, 0xFB3C), (0xFB3E, 0xFB3E),
   (0xFB40, 0xFB41), (0xFB43, 0xFB44), (0xFB46, 0xFBB1), (0xFBD3, 0xFD3D),
   (0xFD50, 0xFD8F), (0xFD92, 0xFDC7), (0xFDF0, 0xFDFB), (0xFE70, 0xFE74),
   (0xFE76, 0xFEFC), (0xFF21, 0xFF3A), (0xFF41, 0xFF5A), (0xFF66, 0xFFBE),
   (0xFFC2, 0xFFC7), (0xFFCA, 0xFFCF), (0xFFD2, 0xFFD7), (0xFFDA, 0xFFDC),
   (0x10000, 0x1000B), (0x1000D, 0x10026), (0x10028, 0x1003A), (0x1003C, 0x1003D),
   (0x1003F, 0x1004D), (0x10050, 0x1005D), (0x10080, 0x100FA), (0x10280, 0x1029C),
   (0x102A0, 0x102D0), (0x10300, 0x1031F), (0x1032D, 0x10340), (0x10342, 0x10349),
   (0x10350, 0x10375), (0x10380, 0x1039D), (0x103A0, 0x103C3), (0x103C8, 0x103CF),
   (0x10400, 0x1049D), (0x104B0, 0x104D3), (0x104D8, 0x104FB), (0x10500, 0x10527),
   (0x10530, 0x10563), (0x10570, 0x1057A), (0x1057C, 0x1058A), (0x1058C, 0x10592),
   (0x10594, 0x10595), (0x10597, 0x105A1), (0x105A3, 0x105B1), (0x105B3, 0x105B9),
   (0x105BB, 0x105BC), (0x10600, 0x10736), (0x10740, 0x10755), (0x10760, 0x10767),
   (0x10780, 0x10785), (0x10787, 0x107B0), (0x107B2, 0x107BA), (0x10800, 0x10805),
   (0x10808, 0x10808), (0x1080A, 0x10835), (0x10837, 0x10838), (0x1083C, 0x1083C),
   (0x1083F, 0x10855), (0x10860, 0x10876), (0x10880, 0x1089E), (0x108E0, 0x108F2),
   (0x108F4, 0x108F5), (0x10900, 0x10915), (0x10920, 0x10939), (0x10980, 0x109B7),
   (0x109BE, 0x109BF), (0x10A00, 0x10A00), (0x10A10, 0x10A13), (0x10A15, 0x10A17),
   (0x10A19, 0x10A35), (0x10A60, 0x10A7C), (0x10A80, 0x10A9C), (0x10AC0, 0x10AC7),
   (0x10AC9, 0x10AE4), (0x10B00, 0x10B35), (0x10B40, 0x10B55), (0x10B60, 0x10B72),
   (0x10B80, 0x10B91), (0x10C00, 0x10C48), (0x10C80, 0x10CB2), (0x10CC0, 0x10CF2),
   (0x10D00, 0x10D23), (0x10E80, 0x10EA9), (0x10EB0, 0x10EB1), (0x10F00, 0x10F1C),
   (0x10F27, 0x10F27), (0x10F30, 0x10F45), (0x10F70, 0x10F81), (0x10FB0, 0x10FC4),
   (0x10FE0, 0x10FF6), (0x11003, 0x11037), (0x11071, 0x11072), (0x11075, 0x11075),
   (0x11083, 0x110AF), (0x110D0, 0x110E8), (0x11103, 0x11126), (0x11144, 0x11144),
   (0x11147, 0x11147), (0x11150, 0x11172), (0x11176, 0x11176), (0x11183, 0x111B2),
   (0x111C1, 0x111C4), (0x111DA, 0x111DA), (0x111DC, 0x111DC), (0x11200, 0x11211),
   (0x11213, 0x1122B), (0x11280, 0x11286), (0x11288, 0x11288), (0x1128A, 0x1128D),
   (0x1128F, 0x1129D), (0x1129F, 0x112A8), (0x112B0, 0x112DE), (0x11305, 0x1130C),
   (0x1130F, 0x11310), (0x11313, 0x11328), (0x1132A, 0x11330), (0x11332, 0x11333),
   (0x11335, 0x11339), (0x1133D, 0x1133D), (0x11350, 0x11350), (0x1135D, 0x11361),
   (0x11400, 0x11434), (0x11447, 0x1144A), (0x1145F, 0x11461), (0x11480, 0x114AF),
   (0x114C4, 0x114C5), (0x114C7, 0x114C7), (0x11580, 0x115AE), (0x115D8, 0x115DB),
   (0x11600, 0x1162F), (0x11644, 0x11644), (0x11680, 0x116AA), (0x116B8, 0x116B8),
   (0x11700, 0x1171A), (0x11740, 0x11746), (0x11800, 0x1182B), (0x118A0, 0x118DF),
   (0x118FF, 0x11906), (0x11909, 0x11909), (0x1190C, 0x11913), (0x11915, 0x11916),
   (0x11918, 0x1192F), (0x1193F, 0x1193F), (0x11941, 0x11941), (0x119A0, 0x119A7),
   (0x119AA, 0x119D0), (0x119E1, 0x119E1), (0x119E3, 0x119E3), (0x11A00, 0x11A00),
   (0x11A0B, 0x11A32), (0x11A3A, 0x11A3A), (0x11A50, 0x11A50), (0x11A5C, 0x11A89),
   (0x11A9D, 0x11A9D), (0x11AB0, 0x11AF8), (0x11C00, 0x11C08), (0x11C0A, 0x11C2E),
   (0x11C40, 0x11C40), (0x11C72, 0x11C8F), (0x11D00, 0x11D06), (0x11D08, 0x11D09),
   (0x11D0B, 0x11D30), (0x11D46, 0x11D46), (0x11D60, 0x11D65), (0x11D67, 0x11D68),
   (0x11D6A, 0x11D89), (0x11D98, 0x11D98), (0x11EE0, 0x11EF2), (0x11FB0, 0x11FB0),
   (0x12000, 0x12399), (0x12480, 0x12543), (0x12F90, 0x12FF0), (0x13000, 0x1342E),
   (0x14400, 0x14646), (0x16800, 0x16A38), (0x16A40, 0x16A5E), (0x16A70, 0x16ABE),
   (0x16AD0, 0x16AED), (0x16B00, 0x16B2F), (0x16B40, 0x16B43), (0x16B63, 0x16B77),
   (0x16B7D, 0x16B8F), (0x16E40, 0x16E7F), (0x16F00, 0x16F4A), (0x16F50, 0x16F50),
   (0x16F93, 0x16F9F), (0x16FE0, 0x16FE1), (0x16FE3, 0x16FE3), (0x17000, 0x187F7),
   (0x18800, 0x18CD5), (0x18D00, 0x18D08), (0x1AFF0, 0x1AFF3), (0x1AFF5, 0x1AFFB),
   (0x1AFFD, 0x1AFFE), (0x1B000, 0x1B122), (0x1B150, 0x1B152), (0x1B164, 0x1B167),
   (0x1B170, 0x1B2FB), (0x1BC00, 0x1BC6A), (0x1BC70, 0x1BC7C), (0x1BC80, 0x1BC88),
   (0x1BC90, 0x1BC99), (0x1D400, 0x1D454), (0x1D456, 0x1D49C), (0x1D49E, 0x1D49F),
   (0x1D4A2, 0x1D4A2), (0x1D4A5, 0x1D4A6), (0x1D4A9, 0x1D4AC), (0x1D4AE, 0x1D4B9),
   (0x1D4BB, 0x1D4BB), (0x1D4BD, 0x1D4C3), (0x1D4C5, 0x1D505), (0x1D507, 0x1D50A),
   (0x1D50D, 0x1D514), (0x1D516, 0x1D51C), (0x1D51E, 0x1D539), (0x1D53B, 0x1D53E),
   (0x1D540, 0x1D544), (0x1D546, 0x1D546), (0x1D54A, 0x1D550), (0x1D552, 0x1D6A5),
   (0x1D6A8, 0x1D6C0), (0x1D6C2, 0x1D6DA), (0x1D6DC, 0x1D6FA), (0x1D6FC, 0x1D714),
   (0x1D716, 0x1D734), (0x1D736, 0x1D74E), (0x1D750, 0x1D76E), (0x1D770, 0x1D788),
   (0x1D78A, 0x1D7A8), (0x1D7AA, 0x1D7C2), (0x1D7C4, 0x1D7CB), (0x1DF00, 0x1DF1E),
   (0x1E100, 0x1E12C), (0x1E137, 0x1E13D), (0x1E14E, 0x1E14E), (0x1E290, 0x1E2AD),
   (0x1E2C0, 0x1E2EB), (0x1E7E0, 0x1E7E6), (0x1E7E8, 0x1E7EB), (0x1E7ED, 0x1E7EE),
   (0x1E7F0, 0x1E7FE), (0x1E800, 0x1E8C4), (0x1E900, 0x1E943), (0x1E94B, 0x1E94B),
   (0x1EE00, 0x1EE03), (0x1EE05, 0x1EE1F), (0x1EE21, 0x1EE22), (0x1EE24, 0x1EE24),
   (0x1EE27, 0x1EE27), (0x1EE29, 0x1EE32), (0x1EE34, 0x1EE37), (0x1EE39, 0x1EE39),
   (0x1EE3B, 0x1EE3B), (0x1EE42, 0x1EE42), (0x1EE47, 0x1EE47), (0x1EE49, 0x1EE49),
   (0x1EE4B, 0x1EE4B), (0x1EE4D, 0x1EE4F), (0x1EE51, 0x1EE52), (0x1EE54, 0x1EE54),
   (0x1EE57, 0x1EE57), (0x1EE59, 0x1EE59), (0x1EE5B, 0x1EE5B), (0x1EE5D, 0x1EE5D),
   (0x1EE5F, 0x1EE5F), (0x1EE61, 0x1EE62), (0x1EE64, 0x1EE64), (0x1EE67, 0x1EE6A),
   (0x1EE6C, 0x1EE72), (0x1EE74, 0x1EE77), (0x1EE79, 0x1EE7C), (0x1EE7E, 0x1EE7E),
   (0x1EE80, 0x1EE89), (0x1EE8B, 0x1EE9B), (0x1EEA1, 0x1EEA3), (0x1EEA5, 0x1EEA9),
   (0x1EEAB, 0x1EEBB), (0x20000, 0x2A6DF), (0x2A700, 0x2B738), (0x2B740, 0x2B81D),
   (0x2B820, 0x2CEA1), (0x2CEB0, 0x2EBE0), (0x2F800, 0x2FA1D), (0x30000, 0x3134A)]

/-- Model of Python `str.isalpha()` for a single character (the only use
in the source is on single characters, in `is_noise_token`). -/
def pyIsAlpha (c : Char) : Bool :=
  alphaRuns.any (fun r => r.1 <= c.toNat && c.toNat <= r.2)

/-- Model of Python `str.lower()` on one character, covering the simple
case mappings of ASCII and the Cyrillic block (the alphabets appearing in
the case-insensitive literals of the source); other characters are unchanged. -/
def pyLower (c : Char) : Char :=
  let n := c.toNat
  if 65 <= n && n <= 90 then Char.ofNat (n + 32)
  else if 0x410 <= n && n <= 0x42F then Char.ofNat (n + 0x20)
  else if 0x400 <= n && n <= 0x40F then Char.ofNat (n + 0x50)
  else c

/-- `str.strip()` on the character list: drop Python whitespace from both
ends. -/
def stripChars (l : List Char) : List Char :=
  ((l.dropWhile pyIsSpace).reverse.dropWhile pyIsSpace).reverse

/-- Python `s.strip()`. -/
def pyStrip (s : String) : String := ⟨stripChars s.data⟩

/-- `str.lower()` on a whole string. -/
def pyLowerStr (s : String) : String := ⟨s.data.map pyLower⟩

/-- Accumulator loop for whitespace-splitting: `cur` holds the reversed
current word. -/
def splitWsGo (cur : List Char) : List Char → List (List Char)
  | [] => if cur.isEmpty then [] else [cur.reverse]
  | c :: rest =>
    if pyIsSpace c then
      if cur.isEmpty then splitWsGo [] rest else cur.reverse :: splitWsGo [] rest
    else splitWsGo (c :: cur) rest

/-- Python `s.split()` (no argument): split on runs of whitespace, no empty
tokens. -/
def pyTokens (s : String) : List String := (splitWsGo [] s.data).map (⟨·⟩)

/-- `is_noise_token` (converter.py:39-42): a single alphabetic character. -/
def is_noise_token (t : String) : Bool :=
  match t.data with
  | [c] => pyIsAlpha c
  | _ => false

/-- The noise test of `_clean_lines` (converter.py:49-51): a non-empty line
all of whose whitespace-separated tokens are noise tokens is dropped. -/
def is_noise_line (s : String) : Bool :=
  let tokens := pyTokens s
  !tokens.isEmpty && tokens.all is_noise_token

/-- Cleaning of one line in `_clean_lines` (converter.py:32):
`line.replace("\xa0", " ").strip()`. -/
def lineClean (l : String) : String :=
  pyStrip ⟨l.data.map (fun c => if c = Char.ofNat 0xA0 then ' ' else c)⟩

/-- The first loop of `_clean_lines` (converter.py:30-37), building
`cleaned`.  The Boolean `canBlank` carries the loop test
`cleaned and cleaned[-1] != ""`: it is true exactly when the list built so
far is non-empty and does not end in a blank, which holds exactly after a
non-blank line was appended. -/
def phase1Go (canBlank : Bool) : List String → List String
  | [] => []
  | l :: ls =>
    let s := lineClean l
    if s = "" then
      if canBlank then "" :: phase1Go false ls else phase1Go canBlank ls
    else s :: phase1Go true ls

/-- The `cleaned` list of `_clean_lines` (initially empty, so the
blank-append test starts false). -/
def phase1 (ls : List String) : List String := phase1Go false ls

/-- The second loop of `_clean_lines` (converter.py:44-52), building
`result_lines`: keep blanks, drop noise lines. -/
def phase2 (ls : List String) : List String :=
  ls.filter (fun s => s == "" || !is_noise_line s)

/-- `"\n".join` on character lists. -/
def joinNLChars : List (List Char) → List Char
  | [] => []
  | [l] => l
  | l :: ls => l ++ '\n' :: joinNLChars ls

/-- `_clean_lines(lines)` (converter.py:29-53):
`"\n".join(result_lines).strip() + "\n"`. -/
def clean_lines (lines : List String) : String :=
  ⟨stripChars (joinNLChars ((phase2 (phase1 lines)).map String.data)) ++ ['\n']⟩

/-- The line-break characters of Python `str.splitlines()`:
`\n \v \f \r \x1c \x1d \x1e \x85 \u2028 \u2029` (with `\r\n` counting
as a single break). -/
def pyIsLineBreak (c : Char) : Bool :=
  let n := c.toNat
  (0x0A <= n && n <= 0x0D) || (0x1C <= n && n <= 0x1E) || n == 0x85 ||
  n == 0x2028 || n == 0x2029

/-- Python `str.splitlines()` on the character list: split at every
line-break character, `\r\n` is one break, a terminal break closes the
last line without opening an empty one, and the empty string has no
lines. -/
def splitLinesChars : List Char → List (List Char)
  | [] => []
  | c :: rest =>
    if pyIsLineBreak c then
      match rest with
      | [] => [[]]
      | d :: rest2 =>
        if c = '\r' && d = '\n' then [] :: splitLinesChars rest2
        else [] :: splitLinesChars (d :: rest2)
    else
      match splitLinesChars rest with
      | h :: t => (c :: h) :: t
      | [] => [[c]]

/-- Python `s.splitlines()`: this is what `pdf_to_structured_xml`
(converter.py:280) applies to the output of the normalizer before
parsing, and what re-splitting normalized text into lines means. -/
def pySplitLines (s : String) : List String :=
  (splitLinesChars s.data).map (⟨·⟩)

/-- End-of-input test for the anchor `$` of `_num_re` (converter.py:120):
in Python `re`, `$` matches at the end of the string or just before a
newline that is the last character of the string. -/
def numReEnd (cs : List Char) : Bool := cs.isEmpty || cs = ['\n']

/-- After the first digit of the `\d{1,4}` in `_num_re`: up to `budget` further
digits, stopping as soon as `$` can match. -/
def numReTail : Nat → List Char → Bool
  | _, [] => true
  | budget, c :: rest =>
    if numReEnd (c :: rest) then true
    else
      match budget with
      | 0 => false
      | b + 1 => pyIsDigit c && numReTail b rest

/-- `_num_re.match(s)` (converter.py:120): does `^\d{1,4}$` match `s`. -/
def numReMatch (cs : List Char) : Bool :=
  match cs with
  | c :: rest => pyIsDigit c && numReTail 3 rest
  | [] => false

/-- `_is_int_line(line)` (converter.py:126-127):
`bool(_num_re.match(line.strip()))`. -/
def is_int_line (line : String) : Bool := numReMatch (pyStrip line).data

/-- `_total_keywords` (converter.py:123). -/
def total_keywords : List String := ["итог", "итоги", "всего", "сумма"]

/-- Is `pat` a prefix of `l` (plain character-by-character comparison). -/
def isPre : List Char → List Char → Bool
  | [], _ => true
  | _ :: _, [] => false
  | p :: ps, c :: cs => p == c && isPre ps cs

/-- The Python substring containment `pat in l` (for non-empty `pat`). -/
def infixChk (pat : List Char) : List Char → Bool
  | [] => pat.isEmpty
  | c :: rest => isPre pat (c :: rest) || infixChk pat rest

/-- `_is_total_line(line)` (converter.py:130-132): the lowercased line
contains one of the total keywords. -/
def is_total_line (line : String) : Bool :=
  let s := pyLowerStr line
  total_keywords.any (fun k => infixChk k.data s.data)

/-- The tail of `_sem_re` = `(\d)\s*семест` (converter.py:122) after its
captured digit: any run of whitespace, then the letters `семест`
case-insensitively (`re.IGNORECASE`). -/
def semTail (cs : List Char) : Bool :=
  isPre "семест".data ((cs.dropWhile pyIsSpace).map pyLower)

/-- Does a match of `_sem_re` start at the head of `cs`. -/
def semHit (cs : List Char) : Bool :=
  match cs with
  | c :: rest => pyIsDigit c && semTail rest
  | [] => false

/-- `_sem_re.search(line)` (used at converter.py:146 and 193): the captured
digit (group 1) of the leftmost match, if any. -/
def semFind : List Char → Option Char
  | [] => none
  | c :: rest => if semHit (c :: rest) then some c else semFind rest

/-- The keyword list of `_looks_like_section_title` (converter.py:148-157). -/
def section_keywords : List String :=
  ["Обязательные дисциплины", "Пул выборных дисциплин", "Практика по выбору",
   "Универсальная (надпрофессиональная) подготовка",
   "Государственная итоговая аттестация", "Факультативные модули",
   "Практика", "ГИА"]

/-- `_looks_like_section_title(line)` (converter.py:143-158): false on the
empty line; else true if `_sem_re` matches somewhere, or some keyword is
contained case-insensitively (`k.lower() in line.lower()`). -/
def looks_like_section_title (line : String) : Bool :=
  if line = "" then false
  else if (semFind line.data).isSome then true
  else section_keywords.any
    (fun k => infixChk (pyLowerStr k).data (pyLowerStr line).data)

/-- The `.*$` tail of `_block_re` (converter.py:121): `.` cannot cross a
newline and `$` only matches at the end or before a terminal newline, so
the rest of the line may contain `'\n'` only as its last character. -/
def blockTailOk (cs : List Char) : Bool := !cs.dropLast.contains '\n'

/-- `_block_re.match(line)` (converter.py:121, 176):
`^Блок\s+(\d+)\.(.*)$` case-insensitively, anchored at the start. -/
def blockMatch (line : String) : Bool :=
  match line.data.map pyLower with
  | c1 :: c2 :: c3 :: c4 :: rest =>
    c1 == 'б' && c2 == 'л' && c3 == 'о' && c4 == 'к' &&
    (let afterWs := rest.dropWhile pyIsSpace
     -- \s+ : at least one whitespace character
     decide (afterWs ≠ rest) &&
     (let digits := afterWs.takeWhile pyIsDigit
      let afterDigits := afterWs.dropWhile pyIsDigit
      -- (\d+) : at least one digit, then a literal dot, then .*$
      !digits.isEmpty &&
      match afterDigits with
      | d :: tail => d == '.' && blockTailOk tail
      | [] => false))
  | _ => false

/-- Python `int(s)` for the strings this converter applies it to (a line of
1–4 Unicode decimal digits, possibly surrounded by whitespace, accepted by
`_is_int_line`): the base-10 value of the stripped digit string. -/
def pyInt (s : String) : Nat :=
  (pyStrip s).data.foldl (fun a c => a * 10 + pyDigitVal c) 0

/-- `_try_parse_three_numbers(lines, idx)` (converter.py:135-140), phrased
on the suffix of the line list starting at `idx`: requires three further
lines to exist and all to be integer lines, and returns
`(credits, hours, semester)`. -/
def try_parse_three_numbers (rest : List String) : Option (Nat × Nat × Nat) :=
  match rest with
  | a :: b :: c :: _ =>
    if is_int_line a && is_int_line b && is_int_line c then
      some (pyInt a, pyInt b, pyInt c)
    else none
  | _ => none

/-- A discipline dict (converter.py:221-226): all three numeric fields are
present whenever one is constructed. -/
structure Discipline where
  title : String
  credits : Nat
  hours : Nat
  semester : Nat
deriving DecidableEq

/-- A section dict (converter.py:199, 228). -/
structure CSection where
  title : String
  semester : Option Nat
  disciplines : List Discipline
deriving DecidableEq

/-- A block dict (converter.py:178, 201, 230). -/
structure CBlock where
  title : String
  sections : List CSection
deriving DecidableEq

/-- The mutable state of `parse_study_plan_lines` (converter.py:162-166).
In the source, `current_block` and `current_section` are aliases into
`data["blocks"]`; whenever they are not `None` they are the last block of
`data["blocks"]` resp. the last section of that block (both are only ever
(re)bound to a freshly appended element).  The state is therefore the
block list plus two flags recording whether `current_block` /
`current_section` is bound, plus `buffer_name`. -/
structure PState where
  blocks : List CBlock
  hasBlock : Bool
  hasSection : Bool
  buffer : List String
deriving DecidableEq

/-- Append a section to the last block (the source's
`current_block["sections"].append(...)`, with `current_block` aliasing the
last block). -/
def appendSectionLast (bs : List CBlock) (sec : CSection) : List CBlock :=
  match bs with
  | [] => []
  | [b] => [{ b with sections := b.sections ++ [sec] }]
  | b :: rest => b :: appendSectionLast rest sec

/-- Append a discipline to the last section of a section list. -/
def appendDiscSections (ss : List CSection) (d : Discipline) : List CSection :=
  match ss with
  | [] => []
  | [s] => [{ s with disciplines := s.disciplines ++ [d] }]
  | s :: rest => s :: appendDiscSections rest d

/-- Append a discipline to the last section of the last block (the
source `current_section["disciplines"].append(disc)`). -/
def appendDiscLast (bs : List CBlock) (d : Discipline) : List CBlock :=
  match bs with
  | [] => []
  | [b] => [{ b with sections := appendDiscSections b.sections d }]
  | b :: rest => b :: appendDiscLast rest d

/-- Open a new section (converter.py:199-204): auto-create the synthetic
block `"Блок"` if no block is open, append the section to the current
block, clear the buffer. -/
def addSection (st : PState) (sec : CSection) : PState :=
  if st.hasBlock then
    { st with blocks := appendSectionLast st.blocks sec,
              hasSection := true, buffer := [] }
  else
    { blocks := st.blocks ++ [⟨"Блок", [sec]⟩],
      hasBlock := true, hasSection := true, buffer := [] }

/-- Emit a discipline (converter.py:220-234): append it to the current
section, auto-creating the synthetic section `"Разное"` (and block
`"Блок"`) as needed, and clear the buffer. -/
def emitDisc (st : PState) (d : Discipline) : PState :=
  if st.hasSection then
    { st with blocks := appendDiscLast st.blocks d, buffer := [] }
  else if st.hasBlock then
    { st with blocks := appendSectionLast st.blocks ⟨"Разное", none, [d]⟩,
              hasSection := true, buffer := [] }
  else
    { blocks := st.blocks ++ [⟨"Блок", [⟨"Разное", none, [d]⟩]⟩],
      hasBlock := true, hasSection := true, buffer := [] }

/-- The header-skip loops (converter.py:183-188 with bound 4 and
converter.py:206-209 with bound 3): drop up to `k` leading lines that are
integer lines (testing `_is_int_line(lines[i].strip())`), stopping at the
first non-integer line. -/
def dropUpTo : Nat → List String → List String
  | 0, l => l
  | _ + 1, [] => []
  | k + 1, x :: xs => if is_int_line (pyStrip x) then dropUpTo k xs else x :: xs

/-- `" ".join` on character lists. -/
def joinSpaceChars : List (List Char) → List Char
  | [] => []
  | [l] => l
  | l :: ls => l ++ ' ' :: joinSpaceChars ls

/-- `" ".join(buffer_name)` (converter.py:220). -/
def joinSpace (bs : List String) : String := ⟨joinSpaceChars (bs.map String.data)⟩

/-- One iteration of the `while` loop of `parse_study_plan_lines`
(converter.py:170-241) at a non-exhausted cursor: the current line is `x`,
the lines after the cursor are `rest`.  Returns the lines still to be
processed and the new state.  The rule order is the source's: blank,
block header, section header, total line, non-integer line (with
3-integer lookahead deciding between emission and buffering), stray
integer line. -/
def stepFn (x : String) (rest : List String) (st : PState) :
    List String × PState :=
  let line := pyStrip x
  if line = "" then (rest, st)
  else if blockMatch line then
    (dropUpTo 4 rest, ⟨st.blocks ++ [⟨line, []⟩], true, false, []⟩)
  else if looks_like_section_title line then
    (dropUpTo 3 rest, addSection st ⟨line, (semFind line.data).map pyDigitVal, []⟩)
  else if is_total_line line then (rest, st)
  else if !is_int_line line then
    match try_parse_three_numbers rest with
    | some (cr, hr, sm) =>
      (rest.drop 3, emitDisc st ⟨pyStrip (joinSpace (st.buffer ++ [line])), cr, hr, sm⟩)
    | none => (rest, { st with buffer := st.buffer ++ [line] })
  else (rest, st)

/-- The `while` loop of `parse_study_plan_lines` (converter.py:170-241).
It terminates because every iteration consumes at least the current
line. -/
def parseLoop : List String → PState → PState
  | [], st => st
  | x :: rest, st => parseLoop (stepFn x rest st).1 (stepFn x rest st).2
termination_by ls _ => ls.length
decreasing_by
  have hd : ∀ (k : Nat) (l : List String), (dropUpTo k l).length ≤ l.length := by
    intro k
    induction k with
    | zero => intro l; simp [dropUpTo]
    | succ k ih =>
      intro l
      cases l with
      | nil => simp [dropUpTo]
      | cons y ys =>
        simp only [dropUpTo]
        split
        · exact le_trans (ih ys) (Nat.le_succ _)
        · exact le_refl _
  have hs : (stepFn x rest st).1.length ≤ rest.length := by
    unfold stepFn
    dsimp only
    repeat' split
    all_goals simp [hd, List.length_drop]
  simp only [List.length_cons]
  exact Nat.lt_succ_of_le hs

/-- `parse_study_plan_lines(lines)` (converter.py:161-243): run the loop
from the initial state (no block, no section, empty buffer) and return
`data["blocks"]`. -/
def parse_study_plan_lines (lines : List String) : List CBlock :=
  (parseLoop lines ⟨[], false, false, []⟩).blocks

/-- The loop of `parse_study_plan_lines` with an explicit iteration budget:
`none` means the budget was exhausted before the cursor reached the end of
the input. -/
def parseFuel : Nat → List String → PState → Option (List CBlock)
  | 0, _, _ => none
  | _ + 1, [], st => some st.blocks
  | f + 1, x :: rest, st => parseFuel f (stepFn x rest st).1 (stepFn x rest st).2

/-- The apostrophe character (U+0027). -/
def apos : Char := Char.ofNat 39

/-- Python `s.replace(p, r)` for a single-character pattern `p`: every
occurrence of `p` becomes `r`. -/
def replace1 (p : Char) (r : List Char) : List Char → List Char
  | [] => []
  | c :: rest => (if c == p then r else [c]) ++ replace1 p r rest

/-- `xml_escape(s)` (converter.py:98-105): the five sequential `replace`
calls, ampersand first. -/
def xml_escape (s : String) : String :=
  ⟨replace1 apos "&apos;".data
    (replace1 '"' "&quot;".data
      (replace1 '>' "&gt;".data
        (replace1 '<' "&lt;".data
          (replace1 '&' "&amp;".data s.data))))⟩

/-- The five XML-special characters escaped by `xml_escape`. -/
def isSpecialChar (c : Char) : Bool :=
  c == '&' || c == '<' || c == '>' || c == '"' || c == apos

/-- Per-character escaping: what `xml_escape` does to one character. -/
def escCh (c : Char) : List Char :=
  if c == '&' then "&amp;".data
  else if c == '<' then "&lt;".data
  else if c == '>' then "&gt;".data
  else if c == '"' then "&quot;".data
  else if c == apos then "&apos;".data
  else [c]

/-- Escape a whole character list one character at a time. -/
def escAll : List Char → List Char
  | [] => []
  | c :: rest => escCh c ++ escAll rest

/-- The standard XML unescaping of the five predefined entities, scanning
left to right. -/
def xmlUnescape : List Char → List Char
  | [] => []
  | c :: rest =>
    if isPre "&amp;".data (c :: rest) then '&' :: xmlUnescape (rest.drop 4)
    else if isPre "&lt;".data (c :: rest) then '<' :: xmlUnescape (rest.drop 3)
    else if isPre "&gt;".data (c :: rest) then '>' :: xmlUnescape (rest.drop 3)
    else if isPre "&quot;".data (c :: rest) then '"' :: xmlUnescape (rest.drop 5)
    else if isPre "&apos;".data (c :: rest) then apos :: xmlUnescape (rest.drop 5)
    else c :: xmlUnescape rest
termination_by l => l.length
decreasing_by all_goals simp [List.length_drop] <;> omega

/-- A left-to-right scan accepting exactly the strings in which every
XML-special character occurs inside one of the five escape sequences. -/
def noRawSpecials : List Char → Bool
  | [] => true
  | c :: rest =>
    if isPre "&amp;".data (c :: rest) then noRawSpecials (rest.drop 4)
    else if isPre "&lt;".data (c :: rest) then noRawSpecials (rest.drop 3)
    else if isPre "&gt;".data (c :: rest) then noRawSpecials (rest.drop 3)
    else if isPre "&quot;".data (c :: rest) then noRawSpecials (rest.drop 5)
    else if isPre "&apos;".data (c :: rest) then noRawSpecials (rest.drop 5)
    else !isSpecialChar c && noRawSpecials rest
termination_by l => l.length
decreasing_by all_goals simp [List.length_drop] <;> omega

/-- `"\n".join` on strings. -/
def joinNLStr (ls : List String) : String := ⟨joinNLChars (ls.map String.data)⟩

/-- The discipline attribute list (converter.py:261-267); in the output of
the structure builder all three numeric fields are always present, so all
four attributes are emitted. -/
def disciplineAttrs (d : Discipline) : List String :=
  ["title=\"" ++ xml_escape d.title ++ "\"",
   "credits=\"" ++ toString d.credits ++ "\"",
   "hours=\"" ++ toString d.hours ++ "\"",
   "semester=\"" ++ toString d.semester ++ "\""]

/-- The `<discipline .../>` line (converter.py:268). -/
def disciplineLine (d : Discipline) : String :=
  "      <discipline " ++ joinSpace (disciplineAttrs d) ++ "/>"

/-- The `<section ...>` opening line (converter.py:252-255): the
`semester` attribute appears only when the semester is present. -/
def sectionOpenLine (s : CSection) : String :=
  "    <section title=\"" ++ xml_escape s.title ++ "\"" ++
    (match s.semester with
     | some n => " semester=\"" ++ toString n ++ "\""
     | none => "") ++ ">"

/-- The `<block ...>` opening line (converter.py:249-250). -/
def blockOpenLine (b : CBlock) : String :=
  "  <block title=\"" ++ xml_escape b.title ++ "\">"

/-- `dict_to_structured_xml(data)` (converter.py:246-272). -/
def dict_to_structured_xml (blocks : List CBlock) : String :=
  joinNLStr
    (["<?xml version=\"1.0\" encoding=\"UTF-8\"?>", "<study_plan>"] ++
     blocks.flatMap (fun b =>
       blockOpenLine b ::
       (b.sections.flatMap (fun s =>
         sectionOpenLine s :: (s.disciplines.map disciplineLine ++ ["    </section>"])) ++
        ["  </block>"])) ++
     ["</study_plan>\n"])

/-- The generic wrapper built by `pdf_to_xml` (converter.py:115): the whole
normalized text, escaped, in a single `document` element. -/
def document_wrapper_xml (content : String) : String :=
  "<?xml version=\"1.0\" encoding=\"UTF-8\"?>\n<document>\n" ++
    xml_escape content ++ "\n</document>\n"

/-- The integer-line rule as the specification words it: the trimmed line
is one to four ASCII digits (`0`-`9`). -/
def spec_ascii_int_line (s : String) : Bool :=
  let t := (pyStrip s).data
  !t.isEmpty && decide (t.length ≤ 4) && t.all Char.isDigit

/-- All disciplines of a block list, in document order. -/
def allDiscs (bs : List CBlock) : List Discipline :=
  bs.flatMap (fun b => b.sections.flatMap (fun sec => sec.disciplines))

/-- The sections of the last block (empty if there is no block). -/
def lastBlockSections (bs : List CBlock) : List CSection :=
  match bs.getLast? with
  | some b => b.sections
  | none => []

/-- The reachable-state invariant of the builder: a bound `current_block`
is the (existing) last block, and a bound `current_section` lives in it. -/
def WFState (st : PState) : Prop :=
  (st.hasBlock = true → st.blocks ≠ []) ∧
  (st.hasSection = true → st.hasBlock = true ∧ lastBlockSections st.blocks ≠ [])

/-- Every discipline of every section of every block has its three numeric
fields in `[0, 9999]` (the lower bound is inherent to `Nat`). -/
def boundedBlocks (bs : List CBlock) : Prop :=
  ∀ b ∈ bs, ∀ sec ∈ b.sections, ∀ d ∈ sec.disciplines,
    d.credits ≤ 9999 ∧ d.hours ≤ 9999 ∧ d.semester ≤ 9999

/-- No two adjacent entries of the line list are both blank. -/
def noAdjBlank : List String → Bool
  | a :: b :: t => !(a == "" && b == "") && noAdjBlank (b :: t)
  | _ => true

/-- The three numeric fields of one discipline are at most 9999. -/
def discBound (d : Discipline) : Prop :=
  d.credits ≤ 9999 ∧ d.hours ≤ 9999 ∧ d.semester ≤ 9999

/-- Remove one trailing blank entry, if present (the effect that the final
`.strip()` of `_clean_lines` has on the line structure). -/
def dropTrailingBlank (R : List String) : List String :=
  match R.getLast? with
  | some "" => R.dropLast
  | _ => R

example : clean_lines ["aa", "", "i", "", "bb"] = "aa\n\n\nbb\n" := by decide

example : pySplitLines "aa\n\n\nbb\n" = ["aa", "", "", "bb"] := by decide

example : clean_lines ["aa", "", "", "bb"] = "aa\n\nbb\n" := by decide

example : clean_lines [] = "\n" := by decide

example : clean_lines ["  Альфа ", "", "", " Бета"] = "Альфа\n\nБета\n" := by decide

example : lineClean " x y " = "x y" := by decide

example : is_noise_line "и" = true := by decide

example : is_noise_line "ab" = false := by decide

example : pyTokens " a  bb " = ["a", "bb"] := by decide

example : is_int_line "123" = true := by decide

example : is_int_line " 42 " = true := by decide

example : is_int_line "12345" = false := by decide

example : is_int_line "" = false := by decide

example : is_int_line "12a" = false := by decide

example : is_int_line "٣" = true := by decide

example : pyInt "٣" = 3 := by decide

example : pyInt " 0108 " = 108 := by decide

example : is_total_line "Итого за семестр" = true := by decide

example : is_total_line "Методы" = false := by decide

example : looks_like_section_title "Обязательные дисциплины 3 семестр" = true := by decide

example : semFind "Обязательные дисциплины 3 семестр".data = some '3' := by decide

example : semFind "Итого за семестр".data = none := by decide

example : looks_like_section_title "Методы" = false := by decide

example : looks_like_section_title "практика по выбору" = true := by decide

example : blockMatch "Блок 3. Образовательные результаты" = true := by decide

example : blockMatch "блок 12.x" = true := by decide

example : blockMatch "Блок 3 x" = false := by decide

example : blockMatch "Блок3.x" = false := by decide

example : try_parse_three_numbers ["4", "108", "1"] = some (4, 108, 1) := by decide

example : try_parse_three_numbers ["4", "108"] = none := by decide

example : try_parse_three_numbers ["4", "x", "1"] = none := by decide

theorem dropUpTo_length_le (k : Nat) (l : List String) :
    (dropUpTo k l).length ≤ l.length := by
  induction k generalizing l with
  | zero => simp [dropUpTo]
  | succ k ih =>
    cases l with
    | nil => simp [dropUpTo]
    | cons x xs =>
      simp only [dropUpTo]
      split
      · exact le_trans (ih xs) (Nat.le_succ _)
      · exact le_refl _

theorem stepFn_fst_length_le (x : String) (rest : List String) (st : PState) :
    (stepFn x rest st).1.length ≤ rest.length := by
  unfold stepFn
  dsimp only
  repeat' split
  all_goals simp [dropUpTo_length_le, List.length_drop]

/-- The loop finishes within `lines.length + 1` iterations: each iteration
strictly consumes input. -/
theorem parseFuel_complete :
    ∀ (f : Nat) (ls : List String) (st : PState), ls.length < f →
      parseFuel f ls st = some (parseLoop ls st).blocks := by
  intro f
  induction f with
  | zero => intro ls st h; omega
  | succ f ih =>
    intro ls st h
    cases ls with
    | nil => simp [parseFuel, parseLoop]
    | cons x rest =>
      have hlen : (stepFn x rest st).1.length < f := by
        have := stepFn_fst_length_le x rest st
        simp only [List.length_cons] at h
        omega
      simp only [parseFuel]
      rw [ih _ _ hlen]
      conv_rhs => rw [parseLoop]

/-- Evaluate `parse_study_plan_lines` through the budgeted loop. -/
theorem parse_eval {lines : List String} {bs : List CBlock}
    (h : parseFuel (lines.length + 1) lines ⟨[], false, false, []⟩ = some bs) :
    parse_study_plan_lines lines = bs := by
  have hc := parseFuel_complete (lines.length + 1) lines ⟨[], false, false, []⟩
    (Nat.lt_succ_self _)
  rw [h] at hc
  exact (Option.some.inj hc).symm

example : parse_study_plan_lines ["Методы", "глубокого обучения", "4", "108", "1"] =
    [⟨"Блок", [⟨"Разное", none, [⟨"Методы глубокого обучения", 4, 108, 1⟩]⟩]⟩] := by
  apply parse_eval; decide

example : parse_study_plan_lines ["Блок 3. Образовательные результаты"] =
    [⟨"Блок 3. Образовательные результаты", []⟩] := by
  apply parse_eval; decide

example : parse_study_plan_lines ["Обязательные дисциплины 3 семестр"] =
    [⟨"Блок", [⟨"Обязательные дисциплины 3 семестр", some 3, []⟩]⟩] := by
  apply parse_eval; decide

example : parse_study_plan_lines ["Методы", "Итого за семестр", "оптимизации", "4", "108", "1"] =
    [⟨"Блок", [⟨"Разное", none, [⟨"Методы оптимизации", 4, 108, 1⟩]⟩]⟩] := by
  apply parse_eval; decide

example : parse_study_plan_lines ["Машинное обучение", "5", "144", "2", "следующая дисциплина"] =
    [⟨"Блок", [⟨"Разное", none, [⟨"Машинное обучение", 5, 144, 2⟩]⟩]⟩] := by
  apply parse_eval; decide

example : parse_study_plan_lines ["Итого за семестр", "10", "20"] = [] := by
  apply parse_eval; decide

example : xml_escape "a<b&c" = "a&lt;b&amp;c" := by decide

example : xml_escape "&amp;" = "&amp;amp;" := by decide

theorem replace1_append (p : Char) (r a b : List Char) :
    replace1 p r (a ++ b) = replace1 p r a ++ replace1 p r b := by
  induction a with
  | nil => simp [replace1]
  | cons c rest ih => simp [replace1, ih]

theorem escape_chain_single (c : Char) :
    replace1 apos "&apos;".data
      (replace1 '"' "&quot;".data
        (replace1 '>' "&gt;".data
          (replace1 '<' "&lt;".data
            (replace1 '&' "&amp;".data [c])))) = escCh c := by
  unfold escCh
  split_ifs with h1 h2 h3 h4 h5
  · rw [show c = '&' from by simpa using h1]; rfl
  · rw [show c = '<' from by simpa using h2]; rfl
  · rw [show c = '>' from by simpa using h3]; rfl
  · rw [show c = '"' from by simpa using h4]; rfl
  · rw [show c = apos from by simpa using h5]; rfl
  · simp [replace1, h1, h2, h3, h4, h5]

theorem escape_chain_eq (l : List Char) :
    replace1 apos "&apos;".data
      (replace1 '"' "&quot;".data
        (replace1 '>' "&gt;".data
          (replace1 '<' "&lt;".data
            (replace1 '&' "&amp;".data l)))) = escAll l := by
  induction l with
  | nil => rfl
  | cons c rest ih =>
    have hc : (c :: rest) = [c] ++ rest := rfl
    rw [hc, replace1_append, replace1_append, replace1_append, replace1_append,
        replace1_append, ih, escape_chain_single]
    rfl

/-- `xml_escape` escapes each character independently. -/
theorem xml_escape_eq (s : String) : (xml_escape s).data = escAll s.data := by
  show (String.mk _).data = _
  rw [escape_chain_eq]

theorem xmlUnescape_plain (c : Char) (t : List Char) (h : c ≠ '&') :
    xmlUnescape (c :: t) = c :: xmlUnescape t := by
  have hb : ('&' == c) = false := beq_eq_false_iff_ne.mpr (Ne.symm h)
  rw [xmlUnescape]
  simp [isPre, hb]

theorem xmlUnescape_amp (t : List Char) :
    xmlUnescape ('&' :: 'a' :: 'm' :: 'p' :: ';' :: t) = '&' :: xmlUnescape t := by
  rw [xmlUnescape]; simp [isPre]

theorem xmlUnescape_lt (t : List Char) :
    xmlUnescape ('&' :: 'l' :: 't' :: ';' :: t) = '<' :: xmlUnescape t := by
  rw [xmlUnescape]; simp [isPre]

theorem xmlUnescape_gt (t : List Char) :
    xmlUnescape ('&' :: 'g' :: 't' :: ';' :: t) = '>' :: xmlUnescape t := by
  rw [xmlUnescape]; simp [isPre]

theorem xmlUnescape_quot (t : List Char) :
    xmlUnescape ('&' :: 'q' :: 'u' :: 'o' :: 't' :: ';' :: t) = '"' :: xmlUnescape t := by
  rw [xmlUnescape]; simp [isPre]

theorem xmlUnescape_apos (t : List Char) :
    xmlUnescape ('&' :: 'a' :: 'p' :: 'o' :: 's' :: ';' :: t) = apos :: xmlUnescape t := by
  rw [xmlUnescape]; simp [isPre]

/-- Unescaping inverts per-character escaping, with any continuation. -/
theorem xmlUnescape_escAll_append (l t : List Char) :
    xmlUnescape (escAll l ++ t) = l ++ xmlUnescape t := by
  induction l with
  | nil => rfl
  | cons c rest ih =>
    show xmlUnescape (escCh c ++ escAll rest ++ t) = _
    unfold escCh
    split_ifs with h1 h2 h3 h4 h5
    · rw [show c = '&' from by simpa using h1]
      show xmlUnescape ('&' :: 'a' :: 'm' :: 'p' :: ';' :: (escAll rest ++ t)) = _
      rw [xmlUnescape_amp, ih]; rfl
    · rw [show c = '<' from by simpa using h2]
      show xmlUnescape ('&' :: 'l' :: 't' :: ';' :: (escAll rest ++ t)) = _
      rw [xmlUnescape_lt, ih]; rfl
    · rw [show c = '>' from by simpa using h3]
      show xmlUnescape ('&' :: 'g' :: 't' :: ';' :: (escAll rest ++ t)) = _
      rw [xmlUnescape_gt, ih]; rfl
    · rw [show c = '"' from by simpa using h4]
      show xmlUnescape ('&' :: 'q' :: 'u' :: 'o' :: 't' :: ';' :: (escAll rest ++ t)) = _
      rw [xmlUnescape_quot, ih]; rfl
    · rw [show c = apos from by simpa using h5]
      show xmlUnescape ('&' :: 'a' :: 'p' :: 'o' :: 's' :: ';' :: (escAll rest ++ t)) = _
      rw [xmlUnescape_apos, ih]; rfl
    · show xmlUnescape (c :: (escAll rest ++ t)) = _
      have hc : c ≠ '&' := by simpa using h1
      rw [xmlUnescape_plain c _ hc, ih]; rfl

theorem xmlUnescape_escAll (l : List Char) : xmlUnescape (escAll l) = l := by
  have h := xmlUnescape_escAll_append l []
  have h0 : xmlUnescape ([] : List Char) = [] := by rw [xmlUnescape]
  rw [h0] at h
  simpa using h

theorem noRaw_plain (c : Char) (t : List Char) (h : c ≠ '&') :
    noRawSpecials (c :: t) = (!isSpecialChar c && noRawSpecials t) := by
  have hb : ('&' == c) = false := beq_eq_false_iff_ne.mpr (Ne.symm h)
  rw [noRawSpecials]
  simp [isPre, hb]

theorem noRaw_amp (t : List Char) :
    noRawSpecials ('&' :: 'a' :: 'm' :: 'p' :: ';' :: t) = noRawSpecials t := by
  rw [noRawSpecials]; simp [isPre]

theorem noRaw_lt (t : List Char) :
    noRawSpecials ('&' :: 'l' :: 't' :: ';' :: t) = noRawSpecials t := by
  rw [noRawSpecials]; simp [isPre]

theorem noRaw_gt (t : List Char) :
    noRawSpecials ('&' :: 'g' :: 't' :: ';' :: t) = noRawSpecials t := by
  rw [noRawSpecials]; simp [isPre]

theorem noRaw_quot (t : List Char) :
    noRawSpecials ('&' :: 'q' :: 'u' :: 'o' :: 't' :: ';' :: t) = noRawSpecials t := by
  rw [noRawSpecials]; simp [isPre]

theorem noRaw_apos (t : List Char) :
    noRawSpecials ('&' :: 'a' :: 'p' :: 'o' :: 's' :: ';' :: t) = noRawSpecials t := by
  rw [noRawSpecials]; simp [isPre]

/-- Per-character escaping leaves no raw special character. -/
theorem noRaw_escAll (l : List Char) : noRawSpecials (escAll l) = true := by
  induction l with
  | nil =>
    show noRawSpecials (escAll []) = true
    rw [show escAll ([] : List Char) = [] from rfl, noRawSpecials]
  | cons c rest ih =>
    show noRawSpecials (escCh c ++ escAll rest) = true
    unfold escCh
    split_ifs with h1 h2 h3 h4 h5
    · show noRawSpecials ('&' :: 'a' :: 'm' :: 'p' :: ';' :: escAll rest) = true
      rw [noRaw_amp, ih]
    · show noRawSpecials ('&' :: 'l' :: 't' :: ';' :: escAll rest) = true
      rw [noRaw_lt, ih]
    · show noRawSpecials ('&' :: 'g' :: 't' :: ';' :: escAll rest) = true
      rw [noRaw_gt, ih]
    · show noRawSpecials ('&' :: 'q' :: 'u' :: 'o' :: 't' :: ';' :: escAll rest) = true
      rw [noRaw_quot, ih]
    · show noRawSpecials ('&' :: 'a' :: 'p' :: 'o' :: 's' :: ';' :: escAll rest) = true
      rw [noRaw_apos, ih]
    · show noRawSpecials (c :: escAll rest) = true
      have hc : c ≠ '&' := by simpa using h1
      rw [noRaw_plain c _ hc, ih]
      simp [isSpecialChar, h1, h2, h3, h4, h5]

/-- Unescaping walks over a region with no ampersand unchanged. -/
theorem xmlUnescape_no_amp_append (a t : List Char) (h : ∀ c ∈ a, c ≠ '&') :
    xmlUnescape (a ++ t) = a ++ xmlUnescape t := by
  induction a with
  | nil => rfl
  | cons c rest ih =>
    show xmlUnescape (c :: (rest ++ t)) = _
    rw [xmlUnescape_plain c _ (h c (by simp)), ih (fun d hd => h d (by simp [hd]))]
    rfl

theorem head?_dropWhile {p : Char → Bool} {l : List Char} {c : Char}
    (h : (l.dropWhile p).head? = some c) : p c = false := by
  induction l with
  | nil => simp [List.dropWhile] at h
  | cons x xs ih =>
    rw [List.dropWhile_cons] at h
    split at h
    · exact ih h
    · simp at h
      subst h
      simp_all

theorem getLast?_append_right {α : Type} (a : List α) {b : List α} (h : b ≠ []) :
    (a ++ b).getLast? = b.getLast? := by
  rw [List.getLast?_append]
  cases hb : b.getLast? with
  | none => exact absurd (List.getLast?_eq_none_iff.mp hb) h
  | some y => rfl

theorem getLast?_dropWhile {p : Char → Bool} {l : List Char}
    (h : l.dropWhile p ≠ []) : (l.dropWhile p).getLast? = l.getLast? := by
  conv_rhs => rw [← List.takeWhile_append_dropWhile (p := p) (l := l)]
  exact (getLast?_append_right _ h).symm

theorem stripChars_head_not_space {l : List Char} {c : Char}
    (h : (stripChars l).head? = some c) : pyIsSpace c = false := by
  unfold stripChars at h
  rw [List.head?_reverse] at h
  have hne : (l.dropWhile pyIsSpace).reverse.dropWhile pyIsSpace ≠ [] := by
    intro he
    rw [he] at h
    simp at h
  rw [getLast?_dropWhile hne, List.getLast?_reverse] at h
  exact head?_dropWhile h

theorem stripChars_last_not_space {l : List Char} {c : Char}
    (h : (stripChars l).getLast? = some c) : pyIsSpace c = false := by
  unfold stripChars at h
  rw [List.getLast?_reverse] at h
  exact head?_dropWhile h

theorem stripChars_last_ne_nl (l : List Char) :
    (stripChars l).getLast? ≠ some '\n' := by
  intro h
  have := stripChars_last_not_space h
  simp [pyIsSpace] at this

theorem numReTail_iff (cs : List Char) (b : Nat)
    (h : cs.getLast? ≠ some '\n') :
    numReTail b cs = true ↔
      (cs.length ≤ b ∧ ∀ c ∈ cs, pyIsDigit c = true) := by
  induction cs generalizing b with
  | nil => simp [numReTail]
  | cons c rest ih =>
    have hne : (c :: rest) ≠ ['\n'] := by
      intro he
      rw [he] at h
      simp at h
    have hend : numReEnd (c :: rest) = false := by
      simp [numReEnd, hne]
    rw [numReTail.eq_def]
    simp only [hend, Bool.false_eq_true, if_false]
    cases b with
    | zero => simp
    | succ b =>
      have hrest : rest.getLast? ≠ some '\n' := by
        cases rest with
        | nil => simp
        | cons y ys =>
          rw [List.getLast?_cons_cons] at h
          exact h
      rw [Bool.and_eq_true, ih b hrest]
      simp only [List.length_cons, List.mem_cons]
      constructor
      · rintro ⟨hc, hlen, hall⟩
        refine ⟨by omega, ?_⟩
        intro d hd
        cases hd with
        | inl he => rw [he]; exact hc
        | inr hm => exact hall d hm
      · rintro ⟨hlen, hall⟩
        exact ⟨hall c (Or.inl rfl), by omega, fun d hd => hall d (Or.inr hd)⟩

/-- Semantic characterisation of `_is_int_line`: the stripped line is a
non-empty string of at most four Unicode decimal digits. -/
theorem is_int_line_iff (L : String) :
    is_int_line L = true ↔
      ((pyStrip L).data ≠ [] ∧ (pyStrip L).data.length ≤ 4 ∧
       ∀ c ∈ (pyStrip L).data, pyIsDigit c = true) := by
  unfold is_int_line numReMatch
  cases hd : (pyStrip L).data with
  | nil => simp
  | cons c rest =>
    have hlast : rest.getLast? ≠ some '\n' := by
      cases rest with
      | nil => simp
      | cons y ys =>
        have := stripChars_last_ne_nl L.data
        unfold pyStrip at hd
        simp only at hd
        rw [hd] at this
        rw [List.getLast?_cons_cons] at this
        exact this
    rw [Bool.and_eq_true, numReTail_iff rest 3 hlast]
    simp only [List.length_cons, List.mem_cons, ne_eq, reduceCtorEq,
      not_false_eq_true, true_and]
    constructor
    · rintro ⟨hc, hlen, hall⟩
      refine ⟨by omega, ?_⟩
      intro d hd
      cases hd with
      | inl he => rw [he]; exact hc
      | inr hm => exact hall d hm
    · rintro ⟨hlen, hall⟩
      exact ⟨hall c (Or.inl rfl), by omega, fun d hd => hall d (Or.inr hd)⟩

theorem pyDigitVal_le_9 (c : Char) : pyDigitVal c ≤ 9 := by
  unfold pyDigitVal
  cases hf : digitRuns.find? (fun r => r.1 <= c.toNat && c.toNat <= r.2) with
  | none => simp
  | some r =>
    have hm : r ∈ digitRuns := List.mem_of_find?_eq_some hf
    have hp := List.find?_some hf
    have hr : ∀ x ∈ digitRuns, x.2 ≤ x.1 + 9 := by decide
    simp only [Bool.and_eq_true, decide_eq_true_eq] at hp
    have hx := hr _ hm
    simp only []
    omega

theorem foldl_digits_lt (l : List Char) :
    ∀ a : Nat, l.foldl (fun a c => a * 10 + pyDigitVal c) a < (a + 1) * 10 ^ l.length := by
  induction l with
  | nil => intro a; simp
  | cons c rest ih =>
    intro a
    simp only [List.foldl_cons, List.length_cons]
    have h1 := ih (a * 10 + pyDigitVal c)
    have h9 := pyDigitVal_le_9 c
    have h2 : (a * 10 + pyDigitVal c + 1) * 10 ^ rest.length ≤
        ((a + 1) * 10) * 10 ^ rest.length :=
      Nat.mul_le_mul_right _ (by omega)
    have h3 : ((a + 1) * 10) * 10 ^ rest.length = (a + 1) * 10 ^ (rest.length + 1) := by
      ring
    omega

theorem pyInt_le_9999 {s : String} (h : is_int_line s = true) : pyInt s ≤ 9999 := by
  have hc := (is_int_line_iff s).mp h
  unfold pyInt
  have hlt := foldl_digits_lt (pyStrip s).data 0
  have hpow : 10 ^ (pyStrip s).data.length ≤ 10 ^ 4 :=
    Nat.pow_le_pow_right (by norm_num) hc.2.1
  simp only [one_mul] at hlt
  omega

theorem try_parse_bounds {rest : List String} {t : Nat × Nat × Nat}
    (h : try_parse_three_numbers rest = some t) :
    t.1 ≤ 9999 ∧ t.2.1 ≤ 9999 ∧ t.2.2 ≤ 9999 := by
  unfold try_parse_three_numbers at h
  split at h
  · split at h
    · rename_i a b c _ hint
      simp only [Bool.and_eq_true] at hint
      simp only [Option.some.injEq] at h
      subst h
      exact ⟨pyInt_le_9999 hint.1.1, pyInt_le_9999 hint.1.2, pyInt_le_9999 hint.2⟩
    · exact absurd h (by simp)
  · exact absurd h (by simp)

theorem boundedBlocks_append {bs : List CBlock} {b : CBlock}
    (h : boundedBlocks bs)
    (hb : ∀ sec ∈ b.sections, ∀ d ∈ sec.disciplines, discBound d) :
    boundedBlocks (bs ++ [b]) := by
  intro b' hb' sec hsec d hd
  rcases List.mem_append.mp hb' with hm | hm
  · exact h b' hm sec hsec d hd
  · simp at hm
    subst hm
    exact hb sec hsec d hd

theorem boundedBlocks_appendSectionLast {bs : List CBlock} {sec : CSection}
    (h : boundedBlocks bs)
    (hs : ∀ d ∈ sec.disciplines, discBound d) :
    boundedBlocks (appendSectionLast bs sec) := by
  induction bs with
  | nil => intro b hb; simp [appendSectionLast] at hb
  | cons b rest ih =>
    cases rest with
    | nil =>
      intro b' hb' s hsec d hd
      simp only [appendSectionLast] at hb'
      simp at hb'
      subst hb'
      simp only [List.mem_append, List.mem_singleton] at hsec
      rcases hsec with hm | hm
      · exact h b (by simp) s hm d hd
      · subst hm; exact hs d hd
    | cons b2 rest2 =>
      intro b' hb' s hsec d hd
      simp only [appendSectionLast] at hb'
      rcases List.mem_cons.mp hb' with hm | hm
      · subst hm; exact h b' (by simp) s hsec d hd
      · have hrest : boundedBlocks (b2 :: rest2) := by
          intro x hx s' hs' d' hd'
          exact h x (by simp [hx]) s' hs' d' hd'
        exact ih hrest b' hm s hsec d hd

theorem boundedSections_appendDiscSections {ss : List CSection} {d : Discipline}
    (h : ∀ sec ∈ ss, ∀ x ∈ sec.disciplines, discBound x) (hd : discBound d) :
    ∀ sec ∈ appendDiscSections ss d, ∀ x ∈ sec.disciplines, discBound x := by
  induction ss with
  | nil => intro sec hs; simp [appendDiscSections] at hs
  | cons s rest ih =>
    cases rest with
    | nil =>
      intro sec hs x hx
      simp only [appendDiscSections] at hs
      simp at hs
      subst hs
      simp only [List.mem_append, List.mem_singleton] at hx
      rcases hx with hm | hm
      · exact h s (by simp) x hm
      · subst hm; exact hd
    | cons s2 rest2 =>
      intro sec hs x hx
      simp only [appendDiscSections] at hs
      rcases List.mem_cons.mp hs with hm | hm
      · subst hm; exact h sec (by simp) x hx
      · exact ih (fun a ha b hb => h a (by simp [ha]) b hb) sec hm x hx

theorem boundedBlocks_appendDiscLast {bs : List CBlock} {d : Discipline}
    (h : boundedBlocks bs) (hd : discBound d) :
    boundedBlocks (appendDiscLast bs d) := by
  induction bs with
  | nil => intro b hb; simp [appendDiscLast] at hb
  | cons b rest ih =>
    cases rest with
    | nil =>
      intro b' hb' s hsec x hx
      simp only [appendDiscLast] at hb'
      simp at hb'
      subst hb'
      exact boundedSections_appendDiscSections
        (fun a ha y hy => h b (by simp) a ha y hy) hd s hsec x hx
    | cons b2 rest2 =>
      intro b' hb' s hsec x hx
      simp only [appendDiscLast] at hb'
      rcases List.mem_cons.mp hb' with hm | hm
      · subst hm; exact h b' (by simp) s hsec x hx
      · have hrest : boundedBlocks (b2 :: rest2) := by
          intro a ha s' hs' d' hd'
          exact h a (by simp [ha]) s' hs' d' hd'
        exact ih hrest b' hm s hsec x hx

theorem boundedBlocks_addSection {st : PState} {sec : CSection}
    (h : boundedBlocks st.blocks)
    (hs : ∀ d ∈ sec.disciplines, discBound d) :
    boundedBlocks (addSection st sec).blocks := by
  unfold addSection
  split
  · exact boundedBlocks_appendSectionLast h hs
  · refine boundedBlocks_append h ?_
    intro s hsec d hd
    simp at hsec
    subst hsec
    exact hs d hd

theorem boundedBlocks_emitDisc {st : PState} {d : Discipline}
    (h : boundedBlocks st.blocks) (hd : discBound d) :
    boundedBlocks (emitDisc st d).blocks := by
  unfold emitDisc
  split
  · exact boundedBlocks_appendDiscLast h hd
  · split
    · refine boundedBlocks_appendSectionLast h ?_
      intro x hx
      simp at hx
      subst hx
      exact hd
    · refine boundedBlocks_append h ?_
      intro s hsec x hx
      simp at hsec
      subst hsec
      simp at hx
      subst hx
      exact hd

theorem stepFn_bounded {x : String} {rest : List String} {st : PState}
    (h : boundedBlocks st.blocks) :
    boundedBlocks (stepFn x rest st).2.blocks := by
  unfold stepFn
  dsimp only
  split
  · exact h
  split
  · refine boundedBlocks_append h ?_
    intro s hs
    simp at hs
  split
  · exact boundedBlocks_addSection h (by intro d hd; simp at hd)
  split
  · exact h
  split
  · split
    · rename_i heq
      exact boundedBlocks_emitDisc h
        ⟨(try_parse_bounds heq).1, (try_parse_bounds heq).2.1, (try_parse_bounds heq).2.2⟩
    · exact h
  · exact h

theorem parseFuel_bounded :
    ∀ (f : Nat) (ls : List String) (st : PState) (bs : List CBlock),
      boundedBlocks st.blocks → parseFuel f ls st = some bs → boundedBlocks bs := by
  intro f
  induction f with
  | zero => intro ls st bs _ h; simp [parseFuel] at h
  | succ f ih =>
    intro ls st bs hb h
    cases ls with
    | nil =>
      simp only [parseFuel, Option.some.injEq] at h
      subst h
      exact hb
    | cons x rest =>
      simp only [parseFuel] at h
      exact ih _ _ _ (stepFn_bounded hb) h

theorem parseLoop_nil (st : PState) : parseLoop [] st = st := by
  rw [parseLoop]

theorem parseLoop_cons (x : String) (rest : List String) (st : PState) :
    parseLoop (x :: rest) st = parseLoop (stepFn x rest st).1 (stepFn x rest st).2 := by
  rw [parseLoop]

theorem stepFn_blank {x : String} {rest : List String} {st : PState}
    (h : pyStrip x = "") : stepFn x rest st = (rest, st) := by
  unfold stepFn
  simp [h]

theorem stepFn_blockHeader {x : String} {rest : List String} {st : PState}
    (h : blockMatch (pyStrip x) = true) :
    stepFn x rest st =
      (dropUpTo 4 rest, ⟨st.blocks ++ [⟨pyStrip x, []⟩], true, false, []⟩) := by
  have hne : ¬ pyStrip x = "" := by
    intro he; rw [he] at h; exact absurd h (by decide)
  unfold stepFn
  simp [hne, h]

theorem stepFn_sectionHeader {x : String} {rest : List String} {st : PState}
    (hb : blockMatch (pyStrip x) = false)
    (hs : looks_like_section_title (pyStrip x) = true) :
    stepFn x rest st =
      (dropUpTo 3 rest,
       addSection st ⟨pyStrip x, (semFind (pyStrip x).data).map pyDigitVal, []⟩) := by
  have hne : ¬ pyStrip x = "" := by
    intro he; rw [he] at hs; exact absurd hs (by decide)
  unfold stepFn
  simp [hne, hb, hs]

theorem stepFn_total {x : String} {rest : List String} {st : PState}
    (hb : blockMatch (pyStrip x) = false)
    (hs : looks_like_section_title (pyStrip x) = false)
    (ht : is_total_line (pyStrip x) = true) :
    stepFn x rest st = (rest, st) := by
  have hne : ¬ pyStrip x = "" := by
    intro he; rw [he] at ht; exact absurd ht (by decide)
  unfold stepFn
  simp [hne, hb, hs, ht]

theorem stepFn_emit {x : String} {rest : List String} {st : PState}
    {cr hr sm : Nat}
    (hne : ¬ pyStrip x = "")
    (hb : blockMatch (pyStrip x) = false)
    (hs : looks_like_section_title (pyStrip x) = false)
    (ht : is_total_line (pyStrip x) = false)
    (hint : is_int_line (pyStrip x) = false)
    (htriple : try_parse_three_numbers rest = some (cr, hr, sm)) :
    stepFn x rest st =
      (rest.drop 3,
       emitDisc st ⟨pyStrip (joinSpace (st.buffer ++ [pyStrip x])), cr, hr, sm⟩) := by
  unfold stepFn
  simp [hne, hb, hs, ht, hint, htriple]

theorem stepFn_noTriple {x : String} {rest : List String} {st : PState}
    (hne : ¬ pyStrip x = "")
    (hb : blockMatch (pyStrip x) = false)
    (hs : looks_like_section_title (pyStrip x) = false)
    (ht : is_total_line (pyStrip x) = false)
    (hint : is_int_line (pyStrip x) = false)
    (htriple : try_parse_three_numbers rest = none) :
    stepFn x rest st = (rest, { st with buffer := st.buffer ++ [pyStrip x] }) := by
  unfold stepFn
  simp [hne, hb, hs, ht, hint, htriple]

theorem stepFn_strayInt {x : String} {rest : List String} {st : PState}
    (hb : blockMatch (pyStrip x) = false)
    (hs : looks_like_section_title (pyStrip x) = false)
    (ht : is_total_line (pyStrip x) = false)
    (hint : is_int_line (pyStrip x) = true) :
    stepFn x rest st = (rest, st) := by
  have hne : ¬ pyStrip x = "" := by
    intro he; rw [he] at hint; exact absurd hint (by decide)
  unfold stepFn
  simp [hne, hb, hs, ht, hint]

theorem allDiscs_append (bs : List CBlock) (b : CBlock) :
    allDiscs (bs ++ [b]) = allDiscs bs ++ b.sections.flatMap (fun s => s.disciplines) := by
  simp [allDiscs]

theorem allDiscs_appendSectionLast {bs : List CBlock} (sec : CSection)
    (h : bs ≠ []) :
    allDiscs (appendSectionLast bs sec) = allDiscs bs ++ sec.disciplines := by
  induction bs with
  | nil => exact absurd rfl h
  | cons b rest ih =>
    cases rest with
    | nil => simp [appendSectionLast, allDiscs]
    | cons b2 rest2 =>
      show allDiscs (b :: appendSectionLast (b2 :: rest2) sec) = _
      simp only [allDiscs, List.flatMap_cons] at *
      rw [ih (by simp)]
      simp

theorem flatMap_appendDiscSections {ss : List CSection} (d : Discipline)
    (h : ss ≠ []) :
    (appendDiscSections ss d).flatMap (fun s => s.disciplines) =
      ss.flatMap (fun s => s.disciplines) ++ [d] := by
  induction ss with
  | nil => exact absurd rfl h
  | cons s rest ih =>
    cases rest with
    | nil => simp [appendDiscSections]
    | cons s2 rest2 =>
      show (s :: appendDiscSections (s2 :: rest2) d).flatMap _ = _
      simp only [List.flatMap_cons]
      rw [ih (by simp)]
      simp

theorem allDiscs_appendDiscLast {bs : List CBlock} (d : Discipline)
    (h : bs ≠ []) (h2 : lastBlockSections bs ≠ []) :
    allDiscs (appendDiscLast bs d) = allDiscs bs ++ [d] := by
  induction bs with
  | nil => exact absurd rfl h
  | cons b rest ih =>
    cases rest with
    | nil =>
      have hsec : b.sections ≠ [] := by
        simpa [lastBlockSections] using h2
      simp only [appendDiscLast, allDiscs, List.flatMap_cons, List.flatMap_nil,
        List.append_nil]
      rw [flatMap_appendDiscSections d hsec]
    | cons b2 rest2 =>
      have h2' : lastBlockSections (b2 :: rest2) ≠ [] := by
        simpa [lastBlockSections, List.getLast?_cons_cons] using h2
      show allDiscs (b :: appendDiscLast (b2 :: rest2) d) = _
      simp only [allDiscs, List.flatMap_cons] at *
      rw [ih (by simp) h2']
      simp

theorem allDiscs_emitDisc {st : PState} (d : Discipline) (hwf : WFState st) :
    allDiscs (emitDisc st d).blocks = allDiscs st.blocks ++ [d] := by
  unfold emitDisc
  split
  · rename_i hsec
    have h2 := hwf.2 hsec
    have h1 := hwf.1 h2.1
    exact allDiscs_appendDiscLast d h1 h2.2
  split
  · rename_i hblk
    show allDiscs (appendSectionLast st.blocks ⟨"Разное", none, [d]⟩) = _
    rw [allDiscs_appendSectionLast _ (hwf.1 hblk)]
  · simp [allDiscs_append, allDiscs]

theorem semFind_none_iff (cs : List Char) :
    semFind cs = none ↔ ∀ i, semHit (List.drop i cs) = false := by
  induction cs with
  | nil =>
    simp [semFind, semHit]
  | cons c rest ih =>
    unfold semFind
    split
    · rename_i hhit
      simp only [reduceCtorEq, false_iff, not_forall]
      exact ⟨0, by simpa using hhit⟩
    · rename_i hhit
      rw [ih]
      constructor
      · intro hall i
        cases i with
        | zero => simpa using (Bool.not_eq_true _).mp hhit
        | succ j => simpa using hall j
      · intro hall i
        simpa using hall (i + 1)

theorem semFind_some_spec {cs : List Char} {c : Char} (h : semFind cs = some c) :
    ∃ i, (List.drop i cs).head? = some c ∧ semHit (List.drop i cs) = true ∧
      ∀ j, j < i → semHit (List.drop j cs) = false := by
  induction cs with
  | nil => simp [semFind] at h
  | cons x rest ih =>
    unfold semFind at h
    split at h
    · rename_i hhit
      simp only [Option.some.injEq] at h
      subst h
      exact ⟨0, by simp, by simpa using hhit, by omega⟩
    · rename_i hhit
      obtain ⟨i, hh, hht, hprev⟩ := ih h
      refine ⟨i + 1, by simpa using hh, by simpa using hht, ?_⟩
      intro j hj
      cases j with
      | zero => simpa using (Bool.not_eq_true _).mp hhit
      | succ j2 => simpa using hprev j2 (by omega)

theorem splitLines_nl (X : List Char) :
    splitLinesChars ('\n' :: X) = [] :: splitLinesChars X := by
  cases X with
  | nil => rfl
  | cons d rest2 => rfl

theorem splitLines_cons_nonbreak (c : Char) (rest : List Char)
    (h : pyIsLineBreak c = false) :
    splitLinesChars (c :: rest) =
      (match splitLinesChars rest with
       | h :: t => (c :: h) :: t
       | [] => [[c]]) := by
  conv_lhs => rw [splitLinesChars.eq_def]
  simp [h]

theorem splitLines_chunk (p : List Char)
    (h : ∀ c ∈ p, pyIsLineBreak c = false) (X : List Char) :
    splitLinesChars (p ++ '\n' :: X) = p :: splitLinesChars X := by
  induction p with
  | nil => exact splitLines_nl X
  | cons c t ih =>
    rw [show (c :: t) ++ '\n' :: X = c :: (t ++ '\n' :: X) from rfl]
    rw [splitLines_cons_nonbreak c _ (h c (by simp))]
    rw [ih (fun d hd => h d (by simp [hd]))]

theorem split_join_nl : ∀ (parts : List (List Char)), parts ≠ [] →
    (∀ p ∈ parts, ∀ c ∈ p, pyIsLineBreak c = false) →
    splitLinesChars (joinNLChars parts ++ ['\n']) = parts := by
  intro parts
  induction parts with
  | nil => intro h; exact absurd rfl h
  | cons p rest ih =>
    intro _ hnb
    cases rest with
    | nil =>
      show splitLinesChars (p ++ '\n' :: []) = [p]
      rw [splitLines_chunk p (hnb p (by simp)) []]
      rfl
    | cons q rest2 =>
      show splitLinesChars ((p ++ '\n' :: joinNLChars (q :: rest2)) ++ ['\n']) = _
      rw [show (p ++ '\n' :: joinNLChars (q :: rest2)) ++ ['\n'] =
        p ++ '\n' :: (joinNLChars (q :: rest2) ++ ['\n']) from by simp]
      rw [splitLines_chunk p (hnb p (by simp)) _]
      rw [ih (by simp) (fun x hx => hnb x (by simp [hx]))]

theorem joinNL_append_blank (parts : List (List Char)) (hne : parts ≠ []) :
    joinNLChars (parts ++ [[]]) = joinNLChars parts ++ ['\n'] := by
  induction parts with
  | nil => exact absurd rfl hne
  | cons p rest ih =>
    cases rest with
    | nil => rfl
    | cons q rest2 =>
      show joinNLChars (p :: ((q :: rest2) ++ [[]])) = _
      have : (q :: rest2) ++ [[]] = (q :: (rest2 ++ [[]])) := by simp
      rw [this]
      show p ++ '\n' :: joinNLChars (q :: (rest2 ++ [[]])) = _
      have h2 := ih (by simp)
      rw [show (q :: rest2) ++ [[]] = q :: (rest2 ++ [[]]) from by simp] at h2
      rw [h2]
      simp [joinNLChars]

theorem joinNL_head (p : List Char) (rest : List (List Char)) (hp : p ≠ []) :
    (joinNLChars (p :: rest)).head? = p.head? := by
  cases rest with
  | nil => rfl
  | cons q rest2 =>
    show (p ++ '\n' :: joinNLChars (q :: rest2)).head? = p.head?
    cases p with
    | nil => exact absurd rfl hp
    | cons c t => simp

theorem joinNL_last (parts : List (List Char)) (p : List Char)
    (hl : parts.getLast? = some p) (hp : p ≠ []) :
    (joinNLChars parts).getLast? = p.getLast? ∧ joinNLChars parts ≠ [] := by
  induction parts with
  | nil => simp at hl
  | cons x rest ih =>
    cases rest with
    | nil =>
      simp only [List.getLast?_singleton, Option.some.injEq] at hl
      subst hl
      exact ⟨rfl, hp⟩
    | cons y rest2 =>
      rw [List.getLast?_cons_cons] at hl
      obtain ⟨ih1, ih2⟩ := ih hl
      constructor
      · show (x ++ '\n' :: joinNLChars (y :: rest2)).getLast? = _
        rw [getLast?_append_right x (by simp)]
        rw [show ('\n' :: joinNLChars (y :: rest2)) = ['\n'] ++ joinNLChars (y :: rest2) from rfl]
        rw [getLast?_append_right ['\n'] ih2]
        exact ih1
      · show x ++ '\n' :: joinNLChars (y :: rest2) ≠ []
        simp

theorem dropWhile_eq_self_of_head {p : Char → Bool} {l : List Char}
    (h : ∀ c, l.head? = some c → p c = false) : l.dropWhile p = l := by
  cases l with
  | nil => rfl
  | cons c t =>
    rw [List.dropWhile_cons]
    simp [h c rfl]

theorem stripChars_eq_self {l : List Char}
    (hh : ∀ c, l.head? = some c → pyIsSpace c = false)
    (hl : ∀ c, l.getLast? = some c → pyIsSpace c = false) :
    stripChars l = l := by
  unfold stripChars
  rw [dropWhile_eq_self_of_head hh]
  rw [dropWhile_eq_self_of_head (by
    intro c hc
    rw [List.head?_reverse] at hc
    exact hl c hc)]
  exact List.reverse_reverse l

theorem stripChars_append_nl {l : List Char} (hne : l ≠ [])
    (hh : ∀ c, l.head? = some c → pyIsSpace c = false)
    (hl : ∀ c, l.getLast? = some c → pyIsSpace c = false) :
    stripChars (l ++ ['\n']) = l := by
  unfold stripChars
  have h1 : (l ++ ['\n']).dropWhile pyIsSpace = l ++ ['\n'] := by
    apply dropWhile_eq_self_of_head
    intro c hc
    cases l with
    | nil => exact absurd rfl hne
    | cons a t =>
      simp at hc
      subst hc
      exact hh a rfl
  rw [h1, List.reverse_append]
  show ((['\n'].reverse ++ l.reverse).dropWhile pyIsSpace).reverse = l
  rw [show ['\n'].reverse = ['\n'] from rfl]
  rw [show (['\n'] ++ l.reverse) = '\n' :: l.reverse from rfl]
  rw [List.dropWhile_cons]
  simp only [show pyIsSpace '\n' = true from rfl, if_true]
  rw [dropWhile_eq_self_of_head (by
    intro c hc
    rw [List.head?_reverse] at hc
    exact hl c hc)]
  exact List.reverse_reverse l

theorem mem_dropLast {α : Type} {l : List α} {x : α} (h : x ∈ l.dropLast) : x ∈ l := by
  induction l with
  | nil => simp at h
  | cons a t ih =>
    cases t with
    | nil => simp at h
    | cons b u =>
      rw [List.dropLast_cons₂] at h
      rcases List.mem_cons.mp h with hm | hm
      · simp [hm]
      · exact List.mem_cons_of_mem a (ih hm)

theorem noAdjBlank_cons_cons (a b : String) (t : List String) :
    noAdjBlank (a :: b :: t) = (!(a == "" && b == "") && noAdjBlank (b :: t)) := rfl

theorem head_dropLast {α : Type} (l : List α) (h : l.dropLast ≠ []) :
    l.dropLast.head? = l.head? := by
  cases l with
  | nil => simp at h
  | cons a t =>
    cases t with
    | nil => simp at h
    | cons b u => rw [List.dropLast_cons₂]; rfl

theorem getLast?_cons_of_ne_nil {α : Type} (a : α) {t : List α} (h : t ≠ []) :
    (a :: t).getLast? = t.getLast? := by
  cases t with
  | nil => exact absurd rfl h
  | cons b u => rw [List.getLast?_cons_cons]

theorem noAdjBlank_dropLast {l : List String} (h : noAdjBlank l = true) :
    noAdjBlank l.dropLast = true := by
  induction l with
  | nil => rfl
  | cons a t ih =>
    cases t with
    | nil => rfl
    | cons b u =>
      rw [noAdjBlank_cons_cons, Bool.and_eq_true] at h
      rw [List.dropLast_cons₂]
      cases hd : (b :: u).dropLast with
      | nil => rfl
      | cons c v =>
        have hc : c = b := by
          have := head_dropLast (b :: u) (by rw [hd]; simp)
          rw [hd] at this
          simpa using this
        subst hc
        rw [noAdjBlank_cons_cons, Bool.and_eq_true]
        refine ⟨h.1, ?_⟩
        rw [← hd]
        exact ih h.2

theorem dropLast_last_ne_blank {l : List String}
    (hadj : noAdjBlank l = true) (hlast : l.getLast? = some "") :
    l.dropLast.getLast? ≠ some "" := by
  induction l with
  | nil => simp at hlast
  | cons a t ih =>
    cases t with
    | nil => simp
    | cons b u =>
      rw [List.getLast?_cons_cons] at hlast
      rw [noAdjBlank_cons_cons, Bool.and_eq_true] at hadj
      rw [List.dropLast_cons₂]
      cases u with
      | nil =>
        have hb : b = "" := by simpa using hlast
        subst hb
        have ha : ¬ a = "" := by
          have := hadj.1
          simp at this
          exact this
        simpa using ha
      | cons c v =>
        have hd : (b :: c :: v).dropLast ≠ [] := by
          rw [List.dropLast_cons₂]
          simp
        intro hcon
        refine ih hadj.2 hlast ?_
        rw [← getLast?_cons_of_ne_nil a hd]
        exact hcon

theorem mem_dropWhile {p : Char → Bool} {l : List Char} {c : Char}
    (h : c ∈ l.dropWhile p) : c ∈ l := by
  induction l with
  | nil => simp [List.dropWhile] at h
  | cons x xs ih =>
    rw [List.dropWhile_cons] at h
    split at h
    · exact List.mem_cons_of_mem x (ih h)
    · exact h

theorem stripChars_subset {l : List Char} {c : Char} (h : c ∈ stripChars l) :
    c ∈ l := by
  unfold stripChars at h
  rw [List.mem_reverse] at h
  have h2 := mem_dropWhile h
  rw [List.mem_reverse] at h2
  exact mem_dropWhile h2

theorem stripChars_idem (l : List Char) :
    stripChars (stripChars l) = stripChars l := by
  apply stripChars_eq_self
  · intro c hc; exact stripChars_head_not_space hc
  · intro c hc; exact stripChars_last_not_space hc

theorem map_id_of_mem {α : Type} {f : α → α} {x : List α}
    (h : ∀ c ∈ x, f c = c) : x.map f = x := by
  induction x with
  | nil => rfl
  | cons c t ih =>
    simp only [List.map_cons, h c (by simp)]
    rw [ih (fun d hd => h d (by simp [hd]))]

theorem lineClean_fix (l : String) : lineClean (lineClean l) = lineClean l := by
  unfold lineClean pyStrip
  apply congrArg String.mk
  show stripChars ((stripChars (l.data.map
      (fun c => if c = Char.ofNat 0xA0 then ' ' else c))).map
      (fun c => if c = Char.ofNat 0xA0 then ' ' else c)) = _
  have hmap : (stripChars (l.data.map
      (fun c => if c = Char.ofNat 0xA0 then ' ' else c))).map
      (fun c => if c = Char.ofNat 0xA0 then ' ' else c) =
      stripChars (l.data.map (fun c => if c = Char.ofNat 0xA0 then ' ' else c)) := by
    apply map_id_of_mem
    intro c hc
    have hm := stripChars_subset hc
    rcases List.mem_map.mp hm with ⟨d, _, hd⟩
    subst hd
    by_cases hdn : d = Char.ofNat 0xA0 <;> simp [hdn]
  rw [hmap, stripChars_idem]

theorem phase1Go_mem {ls : List String} :
    ∀ {b : Bool} {s : String}, s ∈ phase1Go b ls →
      s = "" ∨ ∃ l ∈ ls, s = lineClean l := by
  induction ls with
  | nil => intro b s h; simp [phase1Go] at h
  | cons l t ih =>
    intro b s h
    simp only [phase1Go] at h
    split at h
    · split at h
      · rcases List.mem_cons.mp h with hm | hm
        · exact Or.inl hm
        · rcases ih hm with hm2 | ⟨l2, hl2, hs2⟩
          · exact Or.inl hm2
          · exact Or.inr ⟨l2, by simp [hl2], hs2⟩
      · rcases ih h with hm2 | ⟨l2, hl2, hs2⟩
        · exact Or.inl hm2
        · exact Or.inr ⟨l2, by simp [hl2], hs2⟩
    · rcases List.mem_cons.mp h with hm | hm
      · exact Or.inr ⟨l, by simp, hm⟩
      · rcases ih hm with hm2 | ⟨l2, hl2, hs2⟩
        · exact Or.inl hm2
        · exact Or.inr ⟨l2, by simp [hl2], hs2⟩

theorem phase1Go_head_false (ls : List String) :
    (phase1Go false ls).head? ≠ some "" := by
  induction ls with
  | nil => simp [phase1Go]
  | cons l t ih =>
    simp only [phase1Go]
    split
    · exact ih
    · rename_i hne
      simpa using hne

theorem phase1Go_noAdj (ls : List String) :
    ∀ b, noAdjBlank (phase1Go b ls) = true := by
  induction ls with
  | nil => intro b; rfl
  | cons l t ih =>
    intro b
    simp only [phase1Go]
    split
    · split
      · cases hh : phase1Go false t with
        | nil => rfl
        | cons s0 t0 =>
          rw [noAdjBlank_cons_cons, Bool.and_eq_true]
          constructor
          · have := phase1Go_head_false t
            rw [hh] at this
            simp at this
            simp [this]
          · rw [← hh]; exact ih false
      · exact ih b
    · rename_i hne
      cases hh : phase1Go true t with
      | nil => rfl
      | cons s0 t0 =>
        rw [noAdjBlank_cons_cons, Bool.and_eq_true]
        constructor
        · simp [hne]
        · rw [← hh]; exact ih true

theorem phase1Go_mem_of {ls : List String} {l : String}
    (hl : l ∈ ls) (hne : lineClean l ≠ "") :
    ∀ b, lineClean l ∈ phase1Go b ls := by
  induction ls with
  | nil => simp at hl
  | cons x t ih =>
    intro b
    rcases List.mem_cons.mp hl with hm | hm
    · subst hm
      simp only [phase1Go]
      split
      · rename_i he; exact absurd he hne
      · simp
    · simp only [phase1Go]
      split
      · split
        · exact List.mem_cons_of_mem _ (ih hm false)
        · exact ih hm b
      · exact List.mem_cons_of_mem _ (ih hm true)

theorem phase1Go_fixed :
    ∀ (R : List String) (b : Bool),
      (∀ s ∈ R, lineClean s = s) → noAdjBlank R = true →
      (R.head? = some "" → b = true) → R.getLast? ≠ some "" →
      phase1Go b R = R := by
  intro R
  induction R with
  | nil => intro b _ _ _ _; rfl
  | cons s t ih =>
    intro b hfix hadj hhead hlast
    have hsfix : lineClean s = s := hfix s (by simp)
    by_cases hs : s = ""
    · subst hs
      have hb : b = true := hhead rfl
      subst hb
      have ht : t ≠ [] := by
        intro he; subst he; simp at hlast
      rw [show phase1Go true ("" :: t) = "" :: phase1Go false t from by
        simp [phase1Go, hsfix]]
      congr 1
      apply ih false (fun a ha => hfix a (by simp [ha]))
      · cases t with
        | nil => rfl
        | cons y u =>
          rw [noAdjBlank_cons_cons, Bool.and_eq_true] at hadj
          exact hadj.2
      · intro hc
        cases t with
        | nil => simp at hc
        | cons y u =>
          rw [noAdjBlank_cons_cons, Bool.and_eq_true] at hadj
          have := hadj.1
          simp at hc
          rw [hc] at this
          simp at this
      · rw [← getLast?_cons_of_ne_nil ("" : String) ht]
        exact hlast
    · rw [show phase1Go b (s :: t) = s :: phase1Go true t from by
        simp [phase1Go, hsfix, hs]]
      congr 1
      cases t with
      | nil => rfl
      | cons y u =>
        rw [noAdjBlank_cons_cons, Bool.and_eq_true] at hadj
        apply ih true (fun a ha => hfix a (by simp [ha])) hadj.2 (fun _ => rfl)
        rw [← getLast?_cons_of_ne_nil s (by simp : (y :: u) ≠ [])]
        exact hlast

theorem phase2_eq_self {R : List String}
    (h : ∀ s ∈ R, s = "" ∨ is_noise_line s = false) :
    phase2 R = R := by
  unfold phase2
  apply List.filter_eq_self.mpr
  intro s hs
  rcases h s hs with hm | hm
  · simp [hm]
  · simp [hm]

theorem data_ne_nil {s : String} (h : s ≠ "") : s.data ≠ [] := by
  intro hd
  apply h
  have hs : s = ⟨s.data⟩ := rfl
  rw [hs, hd]

theorem fixed_head_not_space {s : String} (hfix : lineClean s = s) :
    ∀ c, s.data.head? = some c → pyIsSpace c = false := by
  intro c hc
  have hd : s.data = stripChars (s.data.map
      (fun c => if c = Char.ofNat 0xA0 then ' ' else c)) := by
    conv_lhs => rw [← hfix]
    rfl
  rw [hd] at hc
  exact stripChars_head_not_space hc

theorem fixed_last_not_space {s : String} (hfix : lineClean s = s) :
    ∀ c, s.data.getLast? = some c → pyIsSpace c = false := by
  intro c hc
  have hd : s.data = stripChars (s.data.map
      (fun c => if c = Char.ofNat 0xA0 then ' ' else c)) := by
    conv_lhs => rw [← hfix]
    rfl
  rw [hd] at hc
  exact stripChars_last_not_space hc

theorem dropLast_append_of_getLast? {α : Type} {l : List α} {x : α}
    (h : l.getLast? = some x) : l.dropLast ++ [x] = l := by
  induction l with
  | nil => simp at h
  | cons a t ih =>
    cases t with
    | nil =>
      simp at h
      subst h
      rfl
    | cons b u =>
      rw [List.getLast?_cons_cons] at h
      rw [List.dropLast_cons₂, List.cons_append, ih h]

theorem dropTrailingBlank_facts {R : List String}
    (hne : R ≠ []) (hhead : R.head? ≠ some "") (hadj : noAdjBlank R = true) :
    dropTrailingBlank R ≠ [] ∧ (dropTrailingBlank R).head? ≠ some "" ∧
    (dropTrailingBlank R).getLast? ≠ some "" ∧
    noAdjBlank (dropTrailingBlank R) = true ∧
    (∀ s ∈ dropTrailingBlank R, s ∈ R) := by
  unfold dropTrailingBlank
  split
  · rename_i heq
    have h0ne : R.dropLast ≠ [] := by
      cases R with
      | nil => exact absurd rfl hne
      | cons a t =>
        cases t with
        | nil =>
          simp at heq
          subst heq
          simp at hhead
        | cons b u =>
          rw [List.dropLast_cons₂]
          simp
    refine ⟨h0ne, ?_, dropLast_last_ne_blank hadj heq, noAdjBlank_dropLast hadj,
      fun s hs => mem_dropLast hs⟩
    rw [head_dropLast R h0ne]
    exact hhead
  · rename_i hother
    have hl : R.getLast? ≠ some "" := by
      intro hcon
      exact hother hcon
    exact ⟨hne, hhead, hl, hadj, fun s hs => hs⟩

theorem joinNL_strip_fixed {R : List String}
    (hne : R ≠ []) (hhead : R.head? ≠ some "") (hlast : R.getLast? ≠ some "")
    (hfix : ∀ s ∈ R, lineClean s = s) :
    (∀ c, (joinNLChars (R.map String.data)).head? = some c → pyIsSpace c = false) ∧
    (∀ c, (joinNLChars (R.map String.data)).getLast? = some c → pyIsSpace c = false) ∧
    joinNLChars (R.map String.data) ≠ [] := by
  obtain ⟨r, rest, hR⟩ : ∃ r rest, R = r :: rest := by
    cases R with
    | nil => exact absurd rfl hne
    | cons r rest => exact ⟨r, rest, rfl⟩
  subst hR
  have hr : r ≠ "" := by
    intro he
    apply hhead
    rw [he]
    rfl
  obtain ⟨rl, hrl⟩ : ∃ rl, (r :: rest).getLast? = some rl := by
    cases hg : (r :: rest).getLast? with
    | none => rw [List.getLast?_eq_none_iff] at hg; simp at hg
    | some y => exact ⟨y, rfl⟩
  have hrlne : rl ≠ "" := by
    intro he
    rw [he] at hrl
    exact hlast hrl
  have hmapl : ((r :: rest).map String.data).getLast? = some rl.data := by
    rw [List.getLast?_map, hrl]
    rfl
  obtain ⟨hjl, hjne⟩ := joinNL_last _ rl.data hmapl (data_ne_nil hrlne)
  refine ⟨?_, ?_, hjne⟩
  · intro c hc
    rw [show (r :: rest).map String.data = r.data :: rest.map String.data from rfl] at hc
    rw [joinNL_head r.data _ (data_ne_nil hr)] at hc
    exact fixed_head_not_space (hfix r (by simp)) c hc
  · intro c hc
    rw [hjl] at hc
    exact fixed_last_not_space (hfix rl (by
      have := dropLast_append_of_getLast? hrl
      rw [← this]
      simp)) c hc

theorem strip_join_eq {R : List String}
    (hne : R ≠ []) (hhead : R.head? ≠ some "") (hadj : noAdjBlank R = true)
    (hfix : ∀ s ∈ R, lineClean s = s) :
    stripChars (joinNLChars (R.map String.data)) =
      joinNLChars ((dropTrailingBlank R).map String.data) := by
  obtain ⟨h0ne, h0head, h0last, h0adj, h0mem⟩ := dropTrailingBlank_facts hne hhead hadj
  have h0fix : ∀ s ∈ dropTrailingBlank R, lineClean s = s :=
    fun s hs => hfix s (h0mem s hs)
  obtain ⟨hjh, hjl, hjne⟩ := joinNL_strip_fixed h0ne h0head h0last h0fix
  by_cases heq : R.getLast? = some ""
  · -- trailing blank: R = R.dropLast ++ [""]
    have hdtb : dropTrailingBlank R = R.dropLast := by
      unfold dropTrailingBlank
      rw [heq]
      simp
    rw [hdtb] at hjh hjl hjne ⊢
    have hdecomp : R.dropLast ++ [""] = R := dropLast_append_of_getLast? heq
    conv_lhs => rw [← hdecomp]
    rw [show (R.dropLast ++ [""]).map String.data =
      R.dropLast.map String.data ++ [[]] from by simp]
    rw [joinNL_append_blank _ (by
      intro hc
      apply h0ne
      rw [hdtb]
      have hlen : R.dropLast.length = 0 := by
        have := congrArg List.length hc
        simpa using this
      exact List.eq_nil_of_length_eq_zero hlen)]
    exact stripChars_append_nl hjne hjh hjl
  · have hdtb : dropTrailingBlank R = R := by
      unfold dropTrailingBlank
      split
      · rename_i h2
        exact absurd h2 heq
      · rfl
    rw [hdtb] at hjh hjl ⊢
    exact stripChars_eq_self hjh hjl

theorem pySplitLines_join (R₀ : List String) (h0ne : R₀ ≠ [])
    (hnb : ∀ s ∈ R₀, ∀ c ∈ s.data, pyIsLineBreak c = false) :
    pySplitLines ⟨joinNLChars (R₀.map String.data) ++ ['\n']⟩ = R₀ := by
  have hmapne : R₀.map String.data ≠ [] := by
    intro hc
    apply h0ne
    have := congrArg List.length hc
    simpa using List.eq_nil_of_length_eq_zero (by simpa using this)
  unfold pySplitLines
  show (splitLinesChars (joinNLChars (R₀.map String.data) ++ ['\n'])).map _ = R₀
  rw [split_join_nl _ hmapne (by
    intro p hp
    rcases List.mem_map.mp hp with ⟨t, ht, hpt⟩
    subst hpt
    exact hnb t ht)]
  rw [List.map_map]
  exact map_id_of_mem (fun t _ => rfl)

theorem phase1_facts (ls : List String)
    (hnl : ∀ l ∈ ls, ∀ c ∈ (lineClean l).data, pyIsLineBreak c = false)
    (hns : ∀ l ∈ ls, is_noise_line (lineClean l) = false) :
    (phase1 ls).head? ≠ some "" ∧ noAdjBlank (phase1 ls) = true ∧
    (∀ s ∈ phase1 ls, lineClean s = s) ∧
    (∀ s ∈ phase1 ls, ∀ c ∈ s.data, pyIsLineBreak c = false) ∧
    (∀ s ∈ phase1 ls, s = "" ∨ is_noise_line s = false) := by
  refine ⟨phase1Go_head_false ls, phase1Go_noAdj ls false, ?_, ?_, ?_⟩
  · intro s hs
    rcases phase1Go_mem hs with he | ⟨l, _, hsl⟩
    · subst he; rfl
    · subst hsl; exact lineClean_fix l
  · intro s hs
    rcases phase1Go_mem hs with he | ⟨l, hl, hsl⟩
    · subst he; simp
    · subst hsl; exact hnl l hl
  · intro s hs
    rcases phase1Go_mem hs with he | ⟨l, hl, hsl⟩
    · exact Or.inl he
    · subst hsl; exact Or.inr (hns l hl)

theorem clean_main (ls : List String)
    (hnl : ∀ l ∈ ls, ∀ c ∈ (lineClean l).data, pyIsLineBreak c = false)
    (hns : ∀ l ∈ ls, is_noise_line (lineClean l) = false)
    (hRne : phase1 ls ≠ []) :
    pySplitLines (clean_lines ls) = dropTrailingBlank (phase1 ls) ∧
    clean_lines (dropTrailingBlank (phase1 ls)) = clean_lines ls := by
  obtain ⟨hhead, hadj, hfix, hnlR, hkeepR⟩ := phase1_facts ls hnl hns
  obtain ⟨h0ne, h0head, h0last, h0adj, h0mem⟩ := dropTrailingBlank_facts hRne hhead hadj
  have hclean : clean_lines ls =
      ⟨stripChars (joinNLChars ((phase1 ls).map String.data)) ++ ['\n']⟩ := by
    unfold clean_lines
    rw [phase2_eq_self hkeepR]
  have hstrip := strip_join_eq hRne hhead hadj hfix
  have h0fix : ∀ s ∈ dropTrailingBlank (phase1 ls), lineClean s = s :=
    fun s hs => hfix s (h0mem s hs)
  constructor
  · rw [hclean, hstrip]
    exact pySplitLines_join _ h0ne (fun s hs => hnlR s (h0mem s hs))
  · have hphase1 : phase1 (dropTrailingBlank (phase1 ls)) = dropTrailingBlank (phase1 ls) :=
      phase1Go_fixed _ false h0fix h0adj (fun hcon => absurd hcon h0head) h0last
    have hphase2 : phase2 (dropTrailingBlank (phase1 ls)) = dropTrailingBlank (phase1 ls) :=
      phase2_eq_self (fun s hs => hkeepR s (h0mem s hs))
    obtain ⟨hjh, hjl, _⟩ := joinNL_strip_fixed h0ne h0head h0last h0fix
    show ⟨stripChars (joinNLChars ((phase2 (phase1 (dropTrailingBlank (phase1 ls)))).map
      String.data)) ++ ['\n']⟩ = clean_lines ls
    rw [hphase1, hphase2, hclean, stripChars_eq_self hjh hjl, hstrip]

theorem clean_idem (ls : List String)
    (hnl : ∀ l ∈ ls, ∀ c ∈ (lineClean l).data, pyIsLineBreak c = false)
    (hns : ∀ l ∈ ls, is_noise_line (lineClean l) = false) :
    clean_lines (pySplitLines (clean_lines ls)) = clean_lines ls := by
  by_cases hRne : phase1 ls = []
  · have h1 : clean_lines ls = "\n" := by
      unfold clean_lines
      rw [show phase2 (phase1 ls) = [] from by rw [hRne]; rfl]
      decide
    rw [h1]
    decide
  · obtain ⟨hsplit, hrefeed⟩ := clean_main ls hnl hns hRne
    rw [hsplit, hrefeed]

theorem clean_shape (ls : List String)
    (hnl : ∀ l ∈ ls, ∀ c ∈ (lineClean l).data, pyIsLineBreak c = false)
    (hns : ∀ l ∈ ls, is_noise_line (lineClean l) = false)
    (hex : ∃ l ∈ ls, lineClean l ≠ "") :
    noAdjBlank (pySplitLines (clean_lines ls)) = true ∧
    (pySplitLines (clean_lines ls)).head? ≠ some "" ∧
    (pySplitLines (clean_lines ls)).getLast? ≠ some "" := by
  obtain ⟨l, hl, hlne⟩ := hex
  have hRne : phase1 ls ≠ [] := by
    intro hc
    have hmem := phase1Go_mem_of hl hlne false
    rw [show phase1Go false ls = phase1 ls from rfl, hc] at hmem
    simp at hmem
  obtain ⟨hhead, hadj, _, _, _⟩ := phase1_facts ls hnl hns
  obtain ⟨h0ne, h0head, h0last, h0adj, _⟩ := dropTrailingBlank_facts hRne hhead hadj
  obtain ⟨hsplit, _⟩ := clean_main ls hnl hns hRne
  rw [hsplit]
  exact ⟨h0adj, h0head, h0last⟩

theorem dropUpTo_spec : ∀ (k : Nat) (l : List String),
    dropUpTo k l =
      l.drop (min k (l.takeWhile (fun s => is_int_line (pyStrip s))).length) := by
  intro k
  induction k with
  | zero => intro l; simp [dropUpTo]
  | succ k ih =>
    intro l
    cases l with
    | nil => simp [dropUpTo]
    | cons x xs =>
      simp only [dropUpTo]
      split
      · rename_i hint
        rw [ih xs]
        conv_rhs => rw [List.takeWhile_cons, if_pos hint]
        rw [show (k + 1) ⊓ ((x :: List.takeWhile (fun s => is_int_line (pyStrip s)) xs).length) =
          (k ⊓ (List.takeWhile (fun s => is_int_line (pyStrip s)) xs).length) + 1 from by
            simp only [List.length_cons]
            omega]
        rw [List.drop_succ_cons]
      · rename_i hint
        simp only [List.takeWhile_cons, Bool.not_eq_true] at *
        simp [hint]

theorem emitDisc_buffer (st : PState) (d : Discipline) :
    (emitDisc st d).buffer = [] := by
  unfold emitDisc
  repeat' split
  all_goals rfl

theorem xmlUnescape_no_amp (a : List Char) (h : ∀ c ∈ a, c ≠ '&') :
    xmlUnescape a = a := by
  have h1 := xmlUnescape_no_amp_append a [] h
  have h0 : xmlUnescape ([] : List Char) = [] := by rw [xmlUnescape]
  rw [List.append_nil, h0, List.append_nil] at h1
  exact h1

/-- C1: Discipline emission: whenever the builder is at a non-blank line
that is not a block header, not a section header, not a total line and not
an integer line, and the three lines immediately following it are all
integer lines, it consumes exactly those four lines, appends exactly one
Discipline whose title is the buffered fragments plus the current line
joined with single spaces and whose credits, hours and semester are the
three integers in order, and clears the buffer; in particular
`["Методы", "глубокого обучения", "4", "108", "1"]` yields exactly one
Discipline `⟨"Методы глубокого обучения", 4, 108, 1⟩`. -/
theorem claim_C1 :
    (∀ (x a b c : String) (r : List String) (st : PState),
      WFState st →
      ¬ pyStrip x = "" →
      blockMatch (pyStrip x) = false →
      looks_like_section_title (pyStrip x) = false →
      is_total_line (pyStrip x) = false →
      is_int_line (pyStrip x) = false →
      is_int_line a = true → is_int_line b = true → is_int_line c = true →
      parseLoop (x :: a :: b :: c :: r) st =
        parseLoop r (emitDisc st
          ⟨pyStrip (joinSpace (st.buffer ++ [pyStrip x])), pyInt a, pyInt b, pyInt c⟩) ∧
      (emitDisc st
          ⟨pyStrip (joinSpace (st.buffer ++ [pyStrip x])), pyInt a, pyInt b, pyInt c⟩).buffer
        = [] ∧
      allDiscs (emitDisc st
          ⟨pyStrip (joinSpace (st.buffer ++ [pyStrip x])), pyInt a, pyInt b, pyInt c⟩).blocks
        = allDiscs st.blocks ++
          [⟨pyStrip (joinSpace (st.buffer ++ [pyStrip x])), pyInt a, pyInt b, pyInt c⟩]) ∧
    parse_study_plan_lines ["Методы", "глубокого обучения", "4", "108", "1"] =
      [⟨"Блок", [⟨"Разное", none, [⟨"Методы глубокого обучения", 4, 108, 1⟩]⟩]⟩] := by
  constructor
  · intro x a b c r st hwf hne hb hs ht hint ha hbint hc
    have htriple : try_parse_three_numbers (a :: b :: c :: r) =
        some (pyInt a, pyInt b, pyInt c) := by
      show (if (is_int_line a && is_int_line b && is_int_line c) = true
            then some (pyInt a, pyInt b, pyInt c) else none) =
          some (pyInt a, pyInt b, pyInt c)
      rw [ha, hbint, hc]
      simp
    refine ⟨?_, emitDisc_buffer st _, allDiscs_emitDisc _ hwf⟩
    rw [parseLoop_cons, stepFn_emit hne hb hs ht hint htriple]
    simp
  · exact parse_eval (by decide)

/-- Witness for C1: the emission rule applied at a concrete state. -/
theorem claim_C1_witness :
    parseLoop ["Курс", "1", "2", "3"] ⟨[], false, false, []⟩ =
      parseLoop []
        (emitDisc ⟨[], false, false, []⟩
          ⟨pyStrip (joinSpace ([] ++ [pyStrip "Курс"])), pyInt "1", pyInt "2", pyInt "3"⟩) ∧
    (emitDisc ⟨[], false, false, []⟩
        ⟨pyStrip (joinSpace ([] ++ [pyStrip "Курс"])), pyInt "1", pyInt "2", pyInt "3"⟩).buffer
      = [] ∧
    allDiscs (emitDisc ⟨[], false, false, []⟩
        ⟨pyStrip (joinSpace ([] ++ [pyStrip "Курс"])), pyInt "1", pyInt "2", pyInt "3"⟩).blocks
      = allDiscs ([] : List CBlock) ++
        [⟨pyStrip (joinSpace ([] ++ [pyStrip "Курс"])), pyInt "1", pyInt "2", pyInt "3"⟩] :=
  claim_C1.1 "Курс" "1" "2" "3" [] ⟨[], false, false, []⟩
    (by unfold WFState; exact ⟨fun h => by simp at h, fun h => by simp at h⟩) (by decide)
    (by decide) (by decide) (by decide) (by decide) (by decide) (by decide) (by decide)

/-- C2: Totality and termination of the structure builder: the loop of
`parse_study_plan_lines` finishes within `lines.length + 1` iterations for
every input (the cursor strictly advances each iteration), returning the
same document as the total function, and never fails. -/
theorem claim_C2 (f : Nat) (lines : List String) (st : PState)
    (h : lines.length < f) :
    parseFuel f lines st = some (parseLoop lines st).blocks :=
  parseFuel_complete f lines st h

/-- Witness for C2 at the empty input with the minimal budget. -/
theorem claim_C2_witness :
    parseFuel 1 [] ⟨[], false, false, []⟩ =
      some (parseLoop [] ⟨[], false, false, []⟩).blocks :=
  claim_C2 1 [] ⟨[], false, false, []⟩ (by decide)

/-- C3 counterexample: `_is_int_line` accepts the Arabic-Indic digit three
(U+0663), whose trimmed form is not a string of ASCII digits, because
the Python `\d` class matches every Unicode decimal digit.  This refutes the claim
that the predicate holds only for 1-4 ASCII digits. -/
theorem claim_C3_cex :
    is_int_line "٣" = true ∧ spec_ascii_int_line "٣" = false := by
  constructor
  · decide
  · decide

/-- C3 (amended): `_is_int_line L` holds iff `L` trimmed is a non-empty
string of at most four Unicode decimal digits (the class matched by
the Python `\d` class); ASCII digit strings of length 1-4 are accepted, but so are
other Unicode digit strings, so "ASCII" must be weakened to "Unicode". -/
theorem claim_C3 (L : String) :
    is_int_line L = true ↔
      ((pyStrip L).data ≠ [] ∧ (pyStrip L).data.length ≤ 4 ∧
       ∀ c ∈ (pyStrip L).data, pyIsDigit c = true) :=
  is_int_line_iff L

/-- C4 counterexample: the normalizer is not idempotent.  Dropping the
noise line `"i"` between two blank lines leaves two consecutive blank
lines in the output, which a second normalization collapses. -/
theorem claim_C4_cex :
    clean_lines (pySplitLines (clean_lines ["aa", "", "i", "", "bb"])) ≠
      clean_lines ["aa", "", "i", "", "bb"] := by
  decide

/-- C4 (amended): the normalizer is idempotent on every input sequence
whose cleaned lines contain no embedded line-break character (of the set
split by `str.splitlines`) and none of which is an artifact-noise line;
in general a noise line dropped between two blank lines breaks
idempotence (see the counterexample). -/
theorem claim_C4 (ls : List String)
    (hnl : ∀ l ∈ ls, ∀ c ∈ (lineClean l).data, pyIsLineBreak c = false)
    (hns : ∀ l ∈ ls, is_noise_line (lineClean l) = false) :
    clean_lines (pySplitLines (clean_lines ls)) = clean_lines ls :=
  clean_idem ls hnl hns

/-- Witness for C4 on a concrete noise-free input. -/
theorem claim_C4_witness :
    clean_lines (pySplitLines (clean_lines ["  Альфа ", "", "Бета"])) =
      clean_lines ["  Альфа ", "", "Бета"] :=
  claim_C4 ["  Альфа ", "", "Бета"] (by decide) (by decide)

/-- C5 counterexample: the normalized output of
`["xx", "", "й", "", "yy"]` is `"xx\n\n\nyy\n"`, whose line list contains
two consecutive blank lines: dropping the noise line `"й"` merges two
blank runs after the collapsing pass already ran. -/
theorem claim_C5_cex :
    noAdjBlank (pySplitLines (clean_lines ["xx", "", "й", "", "yy"])) = false := by
  decide

/-- C5 (amended): for every input sequence whose cleaned lines contain no
embedded line-break character (of the set split by `str.splitlines`) and
no artifact-noise line, and which has at least one non-blank line, the
normalized output contains no two consecutive blank lines and has no
leading or trailing blank line; dropping a noise line between two blank
lines can violate this (see the counterexample). -/
theorem claim_C5 (ls : List String)
    (hnl : ∀ l ∈ ls, ∀ c ∈ (lineClean l).data, pyIsLineBreak c = false)
    (hns : ∀ l ∈ ls, is_noise_line (lineClean l) = false)
    (hex : ∃ l ∈ ls, lineClean l ≠ "") :
    noAdjBlank (pySplitLines (clean_lines ls)) = true ∧
    (pySplitLines (clean_lines ls)).head? ≠ some "" ∧
    (pySplitLines (clean_lines ls)).getLast? ≠ some "" :=
  clean_shape ls hnl hns hex

/-- Witness for C5 on a concrete input. -/
theorem claim_C5_witness :
    noAdjBlank (pySplitLines (clean_lines ["Первый", "", "Второй"])) = true ∧
    (pySplitLines (clean_lines ["Первый", "", "Второй"])).head? ≠ some "" ∧
    (pySplitLines (clean_lines ["Первый", "", "Второй"])).getLast? ≠ some "" :=
  claim_C5 ["Первый", "", "Второй"] (by decide) (by decide) (by decide)

/-- C6: Block-header rule: at a line matching `Блок <digits>.<rest>`
(case-insensitively) the builder starts a new Block titled with the
matched (stripped) line verbatim and with no sections, closes the current
section, clears the name buffer, and then discards up to 4 immediately
following consecutive integer lines, stopping at the first non-integer
line (`dropUpTo` is shown to drop exactly `min k <length of the leading
integer-line run>` lines); no Section or Discipline is produced.  In
particular `"Блок 3. Образовательные результаты"` starts a Block with
exactly that title. -/
theorem claim_C6 :
    (∀ (x : String) (rest : List String) (st : PState),
      blockMatch (pyStrip x) = true →
      parseLoop (x :: rest) st =
        parseLoop (dropUpTo 4 rest)
          ⟨st.blocks ++ [⟨pyStrip x, []⟩], true, false, []⟩) ∧
    (∀ (k : Nat) (l : List String),
      dropUpTo k l =
        l.drop (min k (l.takeWhile (fun s => is_int_line (pyStrip s))).length)) ∧
    parse_study_plan_lines ["Блок 3. Образовательные результаты"] =
      [⟨"Блок 3. Образовательные результаты", []⟩] := by
  refine ⟨?_, dropUpTo_spec, parse_eval (by decide)⟩
  intro x rest st h
  rw [parseLoop_cons, stepFn_blockHeader h]

/-- Witness for C6 at a concrete block-header line. -/
theorem claim_C6_witness :
    parseLoop ["Блок 1. Дисциплины"] ⟨[], false, false, []⟩ =
      parseLoop (dropUpTo 4 [])
        ⟨[] ++ [⟨pyStrip "Блок 1. Дисциплины", []⟩], true, false, []⟩ :=
  claim_C6.1 "Блок 1. Дисциплины" [] ⟨[], false, false, []⟩ (by decide)

/-- C7: Section semester extraction: at a recognised section-header line
the builder opens a Section whose semester is the value of the captured
digit of the first `(\d)\s*семест` match when one exists, and is absent
when no position of the line matches; `semFind` is characterised as the
digit of the leftmost match.  In particular
`"Обязательные дисциплины 3 семестр"` yields a Section with semester 3. -/
theorem claim_C7 :
    (∀ (x : String) (rest : List String) (st : PState),
      blockMatch (pyStrip x) = false →
      looks_like_section_title (pyStrip x) = true →
      parseLoop (x :: rest) st =
        parseLoop (dropUpTo 3 rest)
          (addSection st
            ⟨pyStrip x, (semFind (pyStrip x).data).map pyDigitVal, []⟩)) ∧
    (∀ (cs : List Char),
      ((∀ i, semHit (cs.drop i) = false) → (semFind cs).map pyDigitVal = none) ∧
      (∀ c, semFind cs = some c →
        pyIsDigit c = true ∧ (semFind cs).map pyDigitVal = some (pyDigitVal c) ∧
        ∃ i, (cs.drop i).head? = some c ∧ semHit (cs.drop i) = true ∧
          ∀ j, j < i → semHit (cs.drop j) = false)) ∧
    parse_study_plan_lines ["Обязательные дисциплины 3 семестр"] =
      [⟨"Блок", [⟨"Обязательные дисциплины 3 семестр", some 3, []⟩]⟩] := by
  refine ⟨?_, ?_, parse_eval (by decide)⟩
  · intro x rest st hb hs
    rw [parseLoop_cons, stepFn_sectionHeader hb hs]
  · intro cs
    constructor
    · intro hall
      rw [(semFind_none_iff cs).mpr hall]
      rfl
    · intro c hc
      obtain ⟨i, hh, hht, hprev⟩ := semFind_some_spec hc
      have hdig : pyIsDigit c = true := by
        cases hdrop : cs.drop i with
        | nil => rw [hdrop] at hh; simp at hh
        | cons d t =>
          rw [hdrop] at hh hht
          simp at hh
          subst hh
          unfold semHit at hht
          simp only [Bool.and_eq_true] at hht
          exact hht.1
      exact ⟨hdig, by rw [hc]; rfl, i, hh, hht, hprev⟩

/-- Witness for C7 at a concrete section-header line. -/
theorem claim_C7_witness :
    parseLoop ["Практика"] ⟨[], false, false, []⟩ =
      parseLoop (dropUpTo 3 [])
        (addSection ⟨[], false, false, []⟩
          ⟨pyStrip "Практика", (semFind (pyStrip "Практика").data).map pyDigitVal, []⟩) :=
  claim_C7.1 "Практика" [] ⟨[], false, false, []⟩ (by decide) (by decide)

/-- C8: XML escaping round-trips: the escaped form of any string contains
no raw `& < > " '` outside the five escape sequences, and the standard XML
unescape recovers the original string; the escaping is applied to the
title attribute of every block, section and discipline line of the
structured output and to the content of the generic wrapper, so
unescaping a block line or the wrapper recovers the raw text in place. -/
theorem claim_C8 :
    (∀ s : String, noRawSpecials (xml_escape s).data = true) ∧
    (∀ s : String, xmlUnescape (xml_escape s).data = s.data) ∧
    (∀ b : CBlock, xmlUnescape (blockOpenLine b).data =
      ("  <block title=\"" ++ b.title ++ "\">").data) ∧
    (∀ content : String, xmlUnescape (document_wrapper_xml content).data =
      ("<?xml version=\"1.0\" encoding=\"UTF-8\"?>\n<document>\n" ++ content ++
        "\n</document>\n").data) ∧
    (∀ d : Discipline,
      (disciplineAttrs d).head? = some ("title=\"" ++ xml_escape d.title ++ "\"")) ∧
    (∀ sec : CSection, sectionOpenLine sec =
      "    <section title=\"" ++ xml_escape sec.title ++ "\"" ++
        (match sec.semester with
         | some n => " semester=\"" ++ toString n ++ "\""
         | none => "") ++ ">") := by
  refine ⟨?_, ?_, ?_, ?_, fun d => rfl, fun sec => rfl⟩
  · intro s
    rw [xml_escape_eq]
    exact noRaw_escAll _
  · intro s
    rw [xml_escape_eq]
    exact xmlUnescape_escAll _
  · intro b
    show xmlUnescape (("  <block title=\"" ++ xml_escape b.title ++ "\">")).data = _
    rw [String.data_append, String.data_append, xml_escape_eq, List.append_assoc]
    rw [xmlUnescape_no_amp_append _ _ (by decide)]
    rw [xmlUnescape_escAll_append]
    rw [xmlUnescape_no_amp _ (by decide)]
    rw [String.data_append, String.data_append, List.append_assoc]
  · intro content
    show xmlUnescape (("<?xml version=\"1.0\" encoding=\"UTF-8\"?>\n<document>\n" ++
      xml_escape content ++ "\n</document>\n")).data = _
    rw [String.data_append, String.data_append, xml_escape_eq, List.append_assoc]
    rw [xmlUnescape_no_amp_append _ _ (by decide)]
    rw [xmlUnescape_escAll_append]
    rw [xmlUnescape_no_amp _ (by decide)]
    rw [String.data_append, String.data_append, List.append_assoc]

/-- C9: Discarded lines do not clear the pending name buffer: a blank
line, a total line, and a stray integer line each advance the cursor one
line with the whole state (including the buffer) unchanged; a failed
three-integer lookahead appends the current line to the buffer without
clearing it.  Hence a discipline title can join fragments separated by a
discarded total line: `["Методы", "Итого за семестр", "оптимизации", "4",
"108", "1"]` yields the single Discipline
`⟨"Методы оптимизации", 4, 108, 1⟩`. -/
theorem claim_C9 :
    (∀ (x : String) (rest : List String) (st : PState),
      pyStrip x = "" → parseLoop (x :: rest) st = parseLoop rest st) ∧
    (∀ (x : String) (rest : List String) (st : PState),
      blockMatch (pyStrip x) = false →
      looks_like_section_title (pyStrip x) = false →
      is_total_line (pyStrip x) = true →
      parseLoop (x :: rest) st = parseLoop rest st) ∧
    (∀ (x : String) (rest : List String) (st : PState),
      blockMatch (pyStrip x) = false →
      looks_like_section_title (pyStrip x) = false →
      is_total_line (pyStrip x) = false →
      is_int_line (pyStrip x) = true →
      parseLoop (x :: rest) st = parseLoop rest st) ∧
    (∀ (x : String) (rest : List String) (st : PState),
      ¬ pyStrip x = "" →
      blockMatch (pyStrip x) = false →
      looks_like_section_title (pyStrip x) = false →
      is_total_line (pyStrip x) = false →
      is_int_line (pyStrip x) = false →
      try_parse_three_numbers rest = none →
      parseLoop (x :: rest) st =
        parseLoop rest { st with buffer := st.buffer ++ [pyStrip x] }) ∧
    parse_study_plan_lines
        ["Методы", "Итого за семестр", "оптимизации", "4", "108", "1"] =
      [⟨"Блок", [⟨"Разное", none, [⟨"Методы оптимизации", 4, 108, 1⟩]⟩]⟩] := by
  refine ⟨?_, ?_, ?_, ?_, parse_eval (by decide)⟩
  · intro x rest st h
    rw [parseLoop_cons, stepFn_blank h]
  · intro x rest st hb hs ht
    rw [parseLoop_cons, stepFn_total hb hs ht]
  · intro x rest st hb hs ht hint
    rw [parseLoop_cons, stepFn_strayInt hb hs ht hint]
  · intro x rest st hne hb hs ht hint htriple
    rw [parseLoop_cons, stepFn_noTriple hne hb hs ht hint htriple]

/-- Witness for C9: a blank line is skipped with a non-empty buffer left
in place. -/
theorem claim_C9_witness :
    parseLoop [" "] ⟨[], false, false, ["Методы"]⟩ =
      parseLoop [] ⟨[], false, false, ["Методы"]⟩ :=
  claim_C9.1 " " [] ⟨[], false, false, ["Методы"]⟩ (by decide)

/-- C10: every Discipline produced by the structure builder has credits,
hours and semester between 0 and 9999 inclusive, because each value is the
integer value of a line of at most 4 decimal digits; this holds for every
input line sequence. -/
theorem claim_C10 (lines : List String) :
    ∀ b ∈ parse_study_plan_lines lines, ∀ sec ∈ b.sections,
      ∀ d ∈ sec.disciplines,
        0 ≤ d.credits ∧ d.credits ≤ 9999 ∧ 0 ≤ d.hours ∧ d.hours ≤ 9999 ∧
        0 ≤ d.semester ∧ d.semester ≤ 9999 := by
  have h := parseFuel_complete (lines.length + 1) lines ⟨[], false, false, []⟩
    (Nat.lt_succ_self _)
  have hb := parseFuel_bounded _ _ _ _ (by intro b hb; simp at hb) h
  intro b hb' sec hs d hd
  have hx := hb b hb' sec hs d hd
  exact ⟨Nat.zero_le _, hx.1, Nat.zero_le _, hx.2.1, Nat.zero_le _, hx.2.2⟩

/-- Witness for C10 at a concrete parsed document. -/
theorem claim_C10_witness :
    0 ≤ (⟨"Курс", 1, 2, 3⟩ : Discipline).credits ∧
    (⟨"Курс", 1, 2, 3⟩ : Discipline).credits ≤ 9999 ∧
    0 ≤ (⟨"Курс", 1, 2, 3⟩ : Discipline).hours ∧
    (⟨"Курс", 1, 2, 3⟩ : Discipline).hours ≤ 9999 ∧
    0 ≤ (⟨"Курс", 1, 2, 3⟩ : Discipline).semester ∧
    (⟨"Курс", 1, 2, 3⟩ : Discipline).semester ≤ 9999 := by
  have hp : parse_study_plan_lines ["Курс", "1", "2", "3"] =
      [⟨"Блок", [⟨"Разное", none, [⟨"Курс", 1, 2, 3⟩]⟩]⟩] :=
    parse_eval (by decide)
  exact claim_C10 ["Курс", "1", "2", "3"]
    ⟨"Блок", [⟨"Разное", none, [⟨"Курс", 1, 2, 3⟩]⟩]⟩ (by rw [hp]; simp)
    ⟨"Разное", none, [⟨"Курс", 1, 2, 3⟩]⟩ (by simp)
    ⟨"Курс", 1, 2, 3⟩ (by simp)
